import Mathlib

/-!
Verification development for the pmf2bin premaster-to-BIN/CUE converter.

The Go program converts a Kodak PhotoCD premaster payload (`.pmf`) plus a
textual track descriptor (`.pmf.ff`) into a 2352-byte-per-sector BIN image.
This file gives a shallow embedding of the program's computational core:

* the GF(256) log/exponent tables and `gfMult` (source `init` / `gfMult`);
* the EDC CRC table and `computeEDC`;
* the P and Q parity LFSR generators (`pParityLFSR`, `qParityLFSR`);
* the track-descriptor validation logic of `parseFF`;
* the sector encoder `buildBin`, modelled as a pure state-passing function
  over the payload byte list, the cursor, and the output stream.

Bytes are modelled as `Nat` values (with `% 256` at the points where Go
performs a byte conversion); Go `int` values are modelled as `Int` with
Go's truncating division (`Int.tdiv` / `Int.tmod`).
-/

namespace Pmf2Bin

/-- A parsed track line: number, mode (2 = Mode 2 Form 1 data, 4 = audio),
inclusive start/end LBAs, and the derived pregap sector count
(source `Track` struct). -/
structure Track where
  Num : Int
  Mode : Int
  Start : Int
  End : Int
  Pregap : Int
deriving DecidableEq, Repr

/-- Payload bytes per data sector (source constant `pmfSector`). -/
def pmfSector : Nat := 2056

/-- Bytes per emitted BIN sector (source constant `binSector`). -/
def binSector : Nat := 2352

/-! ## Galois field tables (source `init`, second part) -/

/-- One doubling-with-reduction step of the GF(256) generator:
`b <<= 1; if b&0x100 != 0 { b ^= 0x11d }` from the source `init`. -/
def gfStep (b : Nat) : Nat :=
  let b2 := b * 2
  if b2 &&& 0x100 ≠ 0 then b2 ^^^ 0x11d else b2

/-- The successive values of the generator `b`, starting from `b = 1`:
`buildPow n b` lists `b, gfStep b, gfStep (gfStep b), …` (`n` entries). -/
def buildPow : Nat → Nat → List Nat
  | 0, _ => []
  | n + 1, b => b :: buildPow n (gfStep b)

/-- Entries `gfPow[0] … gfPow[254]` of the source exponent table. -/
def gfPowList : List Nat := buildPow 255 1

/-- The full 509-entry exponent table: entries `[255:509)` mirror
entries `[0:254)` (source: `gfPow[i] = gfPow[i-255]` for `i` in `[255,509)`). -/
def gfPowTable : List Nat := gfPowList ++ gfPowList.take 254

/-- The source logarithm table `gfLog`: `gfLog[b] = i` for `b = gfPow[i]`,
`i < 255`; entries never assigned (index 0) keep the zero value of the
Go array. -/
def gfLog (v : Nat) : Nat :=
  let i := gfPowList.findIdx (fun x => x == v)
  if i < 255 then i else 0

/-- GF(256) multiplication via the log/exponent tables (source `gfMult`):
returns 0 if either operand is 0, else `gfPow[gfLog[a]+gfLog[b]]`. -/
def gfMult (a b : Nat) : Nat :=
  if a = 0 || b = 0 then 0
  else gfPowTable.getD (gfLog a + gfLog b) 0

/-! ## EDC engine (source `init` first part, `computeEDC`) -/

/-- One shift-reduce round of the EDC table construction
(source: `if r&1 != 0 { r = (r >> 1) ^ polyEDC } else { r >>= 1 }`). -/
def edcStep (r : Nat) : Nat :=
  if r &&& 1 ≠ 0 then (r >>> 1) ^^^ 0xD8018001 else r >>> 1

/-- Entry `i` of the source EDC lookup table `edcLUT`: eight shift-reduce
rounds applied to `i`. -/
def edcLUT (i : Nat) : Nat :=
  (List.range 8).foldl (fun r _ => edcStep r) i

/-- The EDC accumulator loop of source `computeEDC`: start at 0; for each
byte `b`, `index = byte(edc) ^ b`, `edc = (edc >> 8) ^ edcLUT[index]`. -/
def edcAccum (data : List Nat) : Nat :=
  data.foldl (fun edc b => (edc >>> 8) ^^^ edcLUT ((edc % 256) ^^^ (b % 256))) 0

/-- Source `computeEDC`: the accumulator emitted as 4 bytes, little-endian. -/
def computeEDC (data : List Nat) : List Nat :=
  let e := edcAccum data
  [e % 256, (e >>> 8) % 256, (e >>> 16) % 256, (e >>> 24) % 256]

/-! ## Disc addressing (source `toBCD`, `lbaToMSF`) -/

/-- Go's `byte(x)` conversion on an `int`: the low 8 bits, as a `Nat`. -/
def byteOfInt (x : Int) : Nat := (x.emod 256).toNat

/-- Source `toBCD`: `byte((value/10)<<4 | (value%10))`, with Go's
truncating `/` and `%`.  Taking the low byte commutes with the bitwise
or, so the result is the or of the two operands' low bytes. -/
def toBCD (v : Int) : Nat :=
  byteOfInt (v.tdiv 10 * 16) ||| byteOfInt (v.tmod 10)

/-- Source `lbaToMSF`: minute, second, frame of an LBA
(`min = lba/4500`, `sec = (lba/75)%60`, `frame = lba%75`). -/
def lbaToMSF (lba : Int) : Int × Int × Int :=
  (lba.tdiv (60 * 75), (lba.tdiv 75).tmod 60, lba.tmod 75)

/-! ## Reed-Solomon parity engine (source `pParityLFSR`, `qParityLFSR`) -/

/-- One LFSR step shared by both parity loops (source loop bodies):
`feedback = data ^ r1; r1' = r0 ^ gfMult(feedback,3); r0' = gfMult(feedback,2)`,
applied in parallel to the LSB and MSB streams.  State and result are
`(r0Lsb, r0Msb, r1Lsb, r1Msb)`. -/
def eccStep (dl dm : Nat) : Nat × Nat × Nat × Nat → Nat × Nat × Nat × Nat
  | (r0l, r0m, r1l, r1m) =>
    let fl := dl ^^^ r1l
    let fm := dm ^^^ r1m
    (gfMult fl 2, gfMult fm 2, r0l ^^^ gfMult fl 3, r0m ^^^ gfMult fm 3)

/-- Read the LSB/MSB pair at `pos`, with the source's header-zeroing rule:
positions below 4 (below 3 for the MSB) are treated as zero. -/
def readECC (sector : List Nat) (pos : Nat) : Nat × Nat :=
  (if pos < 4 then 0 else sector.getD pos 0,
   if pos < 3 then 0 else sector.getD (pos + 1) 0)

/-- Final LFSR registers for P-parity column `col`: 24 rows starting at
offset `2*col`, stride 86 (source `pParityLFSR` inner loop). -/
def pColRegs (sector : List Nat) (col : Nat) : Nat × Nat × Nat × Nat :=
  ((List.range 24).foldl
    (fun (st : Nat × (Nat × Nat × Nat × Nat)) _ =>
      let (dl, dm) := readECC sector st.1
      (st.1 + 86, eccStep dl dm st.2))
    (2 * col, (0, 0, 0, 0))).2

/-- Final LFSR registers for Q-parity diagonal `diag`: 43 steps starting at
offset `2*43*diag`, stride 88, wrapping at 2236
(source `qParityLFSR` inner loop). -/
def qDiagRegs (sector : List Nat) (diag : Nat) : Nat × Nat × Nat × Nat :=
  ((List.range 43).foldl
    (fun (st : Nat × (Nat × Nat × Nat × Nat)) _ =>
      let pos := if st.1 ≥ 2236 then st.1 - 2236 else st.1
      let (dl, dm) := readECC sector pos
      (pos + 88, eccStep dl dm st.2))
    (2 * 43 * diag, (0, 0, 0, 0))).2

/-- Interleave a list of byte pairs into a flat byte list. -/
def pairsJoin : List (Nat × Nat) → List Nat
  | [] => []
  | (a, b) :: r => a :: b :: pairsJoin r

/-- The P-parity output layout (source `pParityLFSR` result array):
bytes `[0:86)` are the `(r1Lsb, r1Msb)` pairs of the 43 columns in order,
bytes `[86:172)` the `(r0Lsb, r0Msb)` pairs. -/
def pParityBody (sector : List Nat) : List Nat :=
  let regs := (List.range 43).map (pColRegs sector)
  pairsJoin (regs.map fun r => (r.2.2.1, r.2.2.2)) ++
    pairsJoin (regs.map fun r => (r.1, r.2.1))

/-- The Q-parity output layout (source `qParityLFSR` result array):
bytes `[0:52)` are the `(r1Lsb, r1Msb)` pairs of the 26 diagonals,
bytes `[52:104)` the `(r0Lsb, r0Msb)` pairs. -/
def qParityBody (sector : List Nat) : List Nat :=
  let regs := (List.range 26).map (qDiagRegs sector)
  pairsJoin (regs.map fun r => (r.2.2.1, r.2.2.2)) ++
    pairsJoin (regs.map fun r => (r.1, r.2.1))

/-- Source `pParityLFSR`: the 172-byte P-parity of a 2064-byte input;
the length-mismatch panic is modelled as `none`. -/
def pParityLFSR (sector : List Nat) : Option (List Nat) :=
  if sector.length = 2064 then some (pParityBody sector) else none

/-- Source `qParityLFSR`: the 104-byte Q-parity of a 2236-byte input;
the length-mismatch panic is modelled as `none`. -/
def qParityLFSR (sector : List Nat) : Option (List Nat) :=
  if sector.length = 2236 then some (qParityBody sector) else none

/-! ## Spec-side model of the EDC algorithm (for the refinement claim C2) -/

/-- Spec-side rendering of one shift-reduce round: shift right one bit and
xor the reflected polynomial 0xD8018001 exactly when the shifted-out bit
was set. -/
def edcRoundSpec (r : Nat) : Nat :=
  (r >>> 1) ^^^ (if r % 2 = 1 then 0xD8018001 else 0)

/-- `n` shift-reduce rounds, spec-side. -/
def edcRoundsSpec : Nat → Nat → Nat
  | 0, r => r
  | n + 1, r => edcRoundsSpec n (edcRoundSpec r)

/-- Spec-side table entry: the standard 8-round shift-reduce construction
applied to the index. -/
def edcTableSpec (i : Nat) : Nat := edcRoundsSpec 8 i

/-- Spec-side accumulator loop: start at 0 (threaded as `acc`); for each
byte `b`, `index = lowByte(acc) XOR b` and `acc = (acc >> 8) XOR table[index]`;
no initial or final xor mask. -/
def edcAccumSpec : Nat → List Nat → Nat
  | acc, [] => acc
  | acc, b :: rest =>
    edcAccumSpec ((acc >>> 8) ^^^ edcTableSpec ((acc % 256) ^^^ (b % 256))) rest

/-- Spec-side little-endian emission of a 32-bit value as 4 bytes. -/
def le32Bytes (e : Nat) : List Nat :=
  [e % 256, (e >>> 8) % 256, (e >>> 16) % 256, (e >>> 24) % 256]

/-- Spec-side EDC of a byte span. -/
def computeEDCSpec (data : List Nat) : List Nat := le32Bytes (edcAccumSpec 0 data)

/-! ## Track list validation (source `parseFF`, post-scanning part)

The line scanner itself does string I/O; its result is the ordered list of
parsed `num mode start end` rows plus the declared track count and the
actual payload length, which we take as the model's inputs. -/

/-- The per-track validation loop of source `parseFF`: position `i`,
`prevEnd` is the previous track's `End` (meaningful only for `i ≠ 0`).
Checks, in source order: mode ∈ {2,4}; `Num = i+1`; `Start ≤ End`;
derived pregap non-negative; no overlap with the previous track.
Returns the tracks with their `Pregap` fields filled in. -/
def validateGo : Nat → Int → List Track → Except String (List Track)
  | _, _, [] => .ok []
  | i, prevEnd, t :: rest =>
    if ¬(t.Mode = 2 ∨ t.Mode = 4) then .error "invalid mode"
    else if t.Num ≠ (i : Int) + 1 then .error "track numbering mismatch"
    else if t.Start > t.End then .error "start sector is after end sector"
    else if i ≠ 0 ∧ t.Start - prevEnd - 1 < 0 then .error "negative pregap"
    else if i ≠ 0 ∧ t.Start ≤ prevEnd then .error "overlaps previous track"
    else
      match validateGo (i + 1) t.End rest with
      | .ok ts =>
        .ok ({ t with Pregap := if i = 0 then 0 else t.Start - prevEnd - 1 } :: ts)
      | .error e => .error e

/-- Source `parseFF` size check: `Σ sectorCount × unitSize` with
`sectorCount = End − Start + 1` and unit `binSector` for mode 4,
`pmfSector` otherwise. -/
def expectedSize (ts : List Track) : Int :=
  ts.foldl
    (fun acc t =>
      acc + (t.End - t.Start + 1) *
        (if t.Mode = 4 then (binSector : Int) else (pmfSector : Int)))
    0

/-- The validation pipeline of source `parseFF` after scanning:
empty-table check, declared-count check, per-track validation, and the
payload-size check. -/
def parseFF (numExpected : Int) (tracks : List Track) (pmfLen : Int) :
    Except String (List Track) :=
  if tracks.length = 0 then .error "no tracks found in pmf.ff"
  else if numExpected > 0 ∧ (tracks.length : Int) ≠ numExpected then
    .error "track count mismatch"
  else
    match validateGo 0 0 tracks with
    | .error e => .error e
    | .ok ts =>
      if expectedSize ts ≠ pmfLen then .error "PMF length mismatch" else .ok ts

/-! ## Sector encoder (source `buildBin`)

The encoder is modelled as a pure state machine.  The state carries the
payload buffer (which the audio byte-swap mutates in place), the payload
cursor `offset`, and the output stream written so far. -/

/-- Encoder state: payload buffer, cursor, output stream. -/
structure EncSt where
  pmf : List Nat
  offset : Nat
  out : List Nat
deriving DecidableEq, Repr

/-- The two runtime failures of source `buildBin`: a truncated payload
(a chunk reaches past the end) and unconsumed payload bytes after all
tracks. -/
inductive BuildError where
  | truncated (need avail : Nat)
  | unconsumed (remaining : Nat)
deriving DecidableEq, Repr

/-- Bytes `[a:b)` of a list. -/
def slice (l : List Nat) (a b : Nat) : List Nat := (l.drop a).take (b - a)

/-- The 12-byte sync pattern written by source `buildBin`. -/
def syncBytes : List Nat :=
  [0x00, 0xFF, 0xFF, 0xFF, 0xFF, 0xFF, 0xFF, 0xFF, 0xFF, 0xFF, 0xFF, 0x00]

/-- The 4-byte header: BCD minute, second, frame of `lba`, then the mode
byte (source `buildBin` sector bytes 12–15). -/
def msfHeader (lba mode : Int) : List Nat :=
  [toBCD (lbaToMSF lba).1, toBCD (lbaToMSF lba).2.1, toBCD (lbaToMSF lba).2.2,
   byteOfInt mode]

/-- A pregap sector (source `buildBin` pregap loop body): sync and header
for a mode-2 track, all zeros otherwise; the remainder is zero-filled. -/
def pregapSector (mode lba : Int) : List Nat :=
  if mode = 2 then syncBytes ++ msfHeader lba mode ++ List.replicate 2336 0
  else List.replicate 2352 0

/-- A data payload sector (source `buildBin` data branch): sync, header,
the 8-byte subheader and 2048 data bytes from the 2056-byte chunk `raw`,
then the computed EDC, P-parity and Q-parity regions. -/
def encodeDataSector (mode lba : Int) (raw : List Nat) : List Nat :=
  let pre := syncBytes ++ msfHeader lba mode ++ raw.take 8 ++ raw.drop 8
  let withEdc := pre ++ computeEDC (pre.drop 16)
  let withP := withEdc ++ pParityBody (withEdc.drop 12)
  withP ++ qParityBody (withP.drop 12)

/-- The in-place 16-bit byte swap of the audio branch
(`data[i], data[i+1] = data[i+1], data[i]` for even `i`). -/
def swapPairs : List Nat → List Nat
  | a :: b :: rest => b :: a :: swapPairs rest
  | l => l

/-- One audio payload sector (source `buildBin` audio branch): checks for
truncation, reads 2352 bytes at the cursor, swaps byte pairs in place in
the payload buffer when `audioMSB` is set, and emits the chunk verbatim. -/
def audioStep (audioMSB : Bool) (st : EncSt) : Except BuildError EncSt :=
  let endPos := st.offset + binSector
  if st.pmf.length < endPos then .error (.truncated endPos st.pmf.length)
  else
    let chunk := slice st.pmf st.offset endPos
    let data := if audioMSB then swapPairs chunk else chunk
    let pmf' :=
      if audioMSB then st.pmf.take st.offset ++ data ++ st.pmf.drop endPos
      else st.pmf
    .ok ⟨pmf', endPos, st.out ++ data⟩

/-- One data payload sector (source `buildBin` data branch): checks for
truncation, reads 2056 bytes at the cursor and emits the assembled
2352-byte sector. -/
def dataStep (mode lba : Int) (st : EncSt) : Except BuildError EncSt :=
  let endPos := st.offset + pmfSector
  if st.pmf.length < endPos then .error (.truncated endPos st.pmf.length)
  else
    let raw := slice st.pmf st.offset endPos
    .ok ⟨st.pmf, endPos, st.out ++ encodeDataSector mode lba raw⟩

/-- The pregap loop of source `buildBin`: `n` remaining iterations,
current index `s`; each iteration emits one pregap sector at LBA
`Start − Pregap + s + 150` and consumes no payload. -/
def pregapLoop (t : Track) : Nat → Int → EncSt → EncSt
  | 0, _, st => st
  | n + 1, s, st =>
    pregapLoop t n (s + 1)
      ⟨st.pmf, st.offset, st.out ++ pregapSector t.Mode (t.Start - t.Pregap + s + 150)⟩

/-- The payload loop of source `buildBin`: `n` remaining sectors, current
LBA `s`; mode-4 tracks take the audio branch, all others the data branch
(sector LBA `s + 150`). -/
def payloadLoop (audioMSB : Bool) (t : Track) :
    Nat → Int → EncSt → Except BuildError EncSt
  | 0, _, st => .ok st
  | n + 1, s, st =>
    match (if t.Mode = 4 then audioStep audioMSB st else dataStep t.Mode (s + 150) st) with
    | .error e => .error e
    | .ok st' => payloadLoop audioMSB t n (s + 1) st'

/-- The per-track loop of source `buildBin`: pregap sectors, then payload
sectors `Start … End`. -/
def trackLoop (audioMSB : Bool) : List Track → EncSt → Except BuildError EncSt
  | [], st => .ok st
  | t :: rest, st =>
    match payloadLoop audioMSB t (t.End - t.Start + 1).toNat t.Start
        (pregapLoop t t.Pregap.toNat 0 st) with
    | .error e => .error e
    | .ok st' => trackLoop audioMSB rest st'

/-- Source `buildBin`: runs the track loop from cursor 0, then fails with
the unconsumed-input error unless the cursor equals the payload length.
Returns the output stream and the final payload buffer. -/
def buildBin (audioMSB : Bool) (pmf : List Nat) (tracks : List Track) :
    Except BuildError (List Nat × List Nat) :=
  match trackLoop audioMSB tracks ⟨pmf, 0, []⟩ with
  | .error e => .error e
  | .ok st =>
    if st.offset ≠ st.pmf.length then .error (.unconsumed (st.pmf.length - st.offset))
    else .ok (st.out, st.pmf)

/-- Payload bytes one sector of track `t` consumes. -/
def chunkSize (t : Track) : Nat := if t.Mode = 4 then binSector else pmfSector

/-- Number of payload sectors of track `t`. -/
def sectorCount (t : Track) : Nat := (t.End - t.Start + 1).toNat

/-- Total payload bytes a track table consumes. -/
def neededBytes (ts : List Track) : Nat :=
  ts.foldl (fun a t => a + sectorCount t * chunkSize t) 0

/-- Total sectors (pregap plus payload) a track table emits. -/
def emittedSectors (ts : List Track) : Nat :=
  ts.foldl (fun a t => a + (t.Pregap.toNat + sectorCount t)) 0

/-- Does a `buildBin` result denote the truncation error? -/
def isTruncatedErr {α : Type} : Except BuildError α → Bool
  | .error (.truncated _ _) => true
  | _ => false

/-- Does a `buildBin` result denote the unconsumed-input error? -/
def isUnconsumedErr {α : Type} : Except BuildError α → Bool
  | .error (.unconsumed _) => true
  | _ => false

/-! ## Predicates used to characterise the validation logic -/

/-- All per-track checks of the validation loop pass, starting at position
`i` with previous `End` value `prevEnd`. -/
def rowsOk : Nat → Int → List Track → Prop
  | _, _, [] => True
  | i, prevEnd, t :: rest =>
    (t.Mode = 2 ∨ t.Mode = 4) ∧ t.Num = (i : Int) + 1 ∧ t.Start ≤ t.End ∧
      (i = 0 ∨ prevEnd < t.Start) ∧ rowsOk (i + 1) t.End rest

/-- Track numbers are sequential starting from `i + 1`. -/
def numberedFrom : Nat → List Track → Prop
  | _, [] => True
  | i, t :: rest => t.Num = (i : Int) + 1 ∧ numberedFrom (i + 1) rest

/-- Each track starts strictly after the running previous `End`. -/
def chainFromEnd : Int → List Track → Prop
  | _, [] => True
  | prevEnd, t :: rest => prevEnd < t.Start ∧ chainFromEnd t.End rest

/-- The `Pregap` fields hold the values the validation loop derives:
0 at position 0, `Start − prevEnd − 1` afterwards. -/
def pregapsOk : Nat → Int → List Track → Prop
  | _, _, [] => True
  | i, prevEnd, t :: rest =>
    t.Pregap = (if i = 0 then 0 else t.Start - prevEnd - 1) ∧
      pregapsOk (i + 1) t.End rest

/-- A track without its derived `Pregap` field. -/
def stripPregap (t : Track) : Int × Int × Int × Int := (t.Num, t.Mode, t.Start, t.End)

/-! ## Supporting lemmas -/

theorem pairsJoin_length (l : List (Nat × Nat)) :
    (pairsJoin l).length = 2 * l.length := by
  induction l with
  | nil => rfl
  | cons h t ih => cases h; simp [pairsJoin, ih]; omega

theorem pParityBody_length (s : List Nat) : (pParityBody s).length = 172 := by
  simp [pParityBody, pairsJoin_length]

theorem qParityBody_length (s : List Nat) : (qParityBody s).length = 104 := by
  simp [qParityBody, pairsJoin_length]

theorem take_append_exact (A B : List Nat) (n : Nat) (h : A.length = n) :
    (A ++ B).take n = A := by
  subst h; exact List.take_left A B

theorem drop_append_exact (A B : List Nat) (n : Nat) (h : A.length = n) :
    (A ++ B).drop n = B := by
  subst h; exact List.drop_left A B

theorem slice_append_middle (A B rest : List Nat) (a k : Nat)
    (hA : A.length = a) (hB : B.length = k) :
    slice (A ++ (B ++ rest)) a (a + k) = B := by
  unfold slice
  rw [drop_append_exact A (B ++ rest) a hA, Nat.add_sub_cancel_left,
    take_append_exact B rest k hB]

theorem slice_len (l : List Nat) (a k : Nat) (h : a + k ≤ l.length) :
    (slice l a (a + k)).length = k := by
  unfold slice
  rw [List.length_take, List.length_drop, Nat.add_sub_cancel_left]
  omega

theorem swapPairs_length : ∀ l : List Nat, (swapPairs l).length = l.length
  | [] => rfl
  | [_] => rfl
  | _ :: _ :: rest => by
    simpa [swapPairs] using swapPairs_length rest

theorem computeEDC_length (data : List Nat) : (computeEDC data).length = 4 := rfl

theorem swapPairs_replicate (x : Nat) :
    ∀ n, swapPairs (List.replicate n x) = List.replicate n x
  | 0 => rfl
  | 1 => rfl
  | n + 2 => by
    rw [List.replicate_succ, List.replicate_succ]
    rw [show swapPairs (x :: x :: List.replicate n x)
        = x :: x :: swapPairs (List.replicate n x) from rfl]
    rw [swapPairs_replicate x n]

theorem syncBytes_length : syncBytes.length = 12 := rfl

theorem msfHeader_length (lba mode : Int) : (msfHeader lba mode).length = 4 := rfl

theorem pregapSector_length (mode lba : Int) : (pregapSector mode lba).length = 2352 := by
  unfold pregapSector
  by_cases h : mode = 2
  · rw [if_pos h]
    simp only [List.length_append, syncBytes_length, msfHeader_length,
      List.length_replicate]
  · rw [if_neg h, List.length_replicate]

theorem encodeDataSector_parts_length (mode lba : Int) (raw : List Nat)
    (hlen : raw.length = 2056) :
    (syncBytes ++ msfHeader lba mode ++ raw.take 8 ++ raw.drop 8).length = 2072 := by
  simp [syncBytes, msfHeader, List.length_take, List.length_drop, hlen]

theorem encodeDataSector_length (mode lba : Int) (raw : List Nat)
    (hlen : raw.length = 2056) :
    (encodeDataSector mode lba raw).length = 2352 := by
  unfold encodeDataSector
  simp only [List.length_append, encodeDataSector_parts_length mode lba raw hlen,
    computeEDC_length, pParityBody_length, qParityBody_length]

theorem foldl_add_shift {α : Type} [AddCommMonoid α] (f : Track → α) :
    ∀ (ts : List Track) (a : α),
      ts.foldl (fun acc t => acc + f t) a = a + ts.foldl (fun acc t => acc + f t) 0 := by
  intro ts
  induction ts with
  | nil => simp
  | cons t rest ih =>
    intro a
    rw [List.foldl_cons, List.foldl_cons, ih (a + f t), ih (0 + f t)]
    rw [zero_add, add_assoc]

theorem neededBytes_cons (t : Track) (rest : List Track) :
    neededBytes (t :: rest) = sectorCount t * chunkSize t + neededBytes rest := by
  unfold neededBytes
  rw [List.foldl_cons, foldl_add_shift (fun t => sectorCount t * chunkSize t) rest]
  omega

theorem emittedSectors_cons (t : Track) (rest : List Track) :
    emittedSectors (t :: rest) = (t.Pregap.toNat + sectorCount t) + emittedSectors rest := by
  unfold emittedSectors
  rw [List.foldl_cons, foldl_add_shift (fun t => t.Pregap.toNat + sectorCount t) rest]
  omega

theorem expectedSize_cons (t : Track) (rest : List Track) :
    expectedSize (t :: rest) =
      (t.End - t.Start + 1) * (if t.Mode = 4 then (binSector : Int) else (pmfSector : Int))
        + expectedSize rest := by
  unfold expectedSize
  rw [List.foldl_cons,
    foldl_add_shift
      (fun t => (t.End - t.Start + 1) *
        (if t.Mode = 4 then (binSector : Int) else (pmfSector : Int))) rest]
  ring

theorem audioStep_ok (flag : Bool) (st st' : EncSt) (h : audioStep flag st = .ok st') :
    st'.offset = st.offset + binSector ∧
    st'.pmf.length = st.pmf.length ∧
    (flag = false → st'.pmf = st.pmf) ∧
    ∃ tail, st'.out = st.out ++ tail ∧ tail.length = binSector := by
  simp only [audioStep] at h
  by_cases hlt : st.pmf.length < st.offset + binSector
  · rw [if_pos hlt] at h
    exact absurd h (by simp)
  · rw [if_neg hlt] at h
    have hle : st.offset + binSector ≤ st.pmf.length := Nat.le_of_not_lt hlt
    have hchunk : (slice st.pmf st.offset (st.offset + binSector)).length = binSector :=
      slice_len st.pmf st.offset binSector hle
    cases h
    cases flag with
    | false =>
      refine ⟨rfl, rfl, fun _ => rfl, slice st.pmf st.offset (st.offset + binSector), ?_, ?_⟩
      · simp
      · simpa using hchunk
    | true =>
      refine ⟨rfl, ?_, by simp, swapPairs (slice st.pmf st.offset (st.offset + binSector)),
        by simp, by simpa [swapPairs_length] using hchunk⟩
      simp [swapPairs_length, hchunk]
      omega

theorem audioStep_err (flag : Bool) (st : EncSt)
    (h : st.pmf.length < st.offset + binSector) :
    audioStep flag st = .error (.truncated (st.offset + binSector) st.pmf.length) := by
  simp only [audioStep]
  rw [if_pos h]

theorem dataStep_ok (mode lba : Int) (st st' : EncSt) (h : dataStep mode lba st = .ok st') :
    st'.offset = st.offset + pmfSector ∧
    st'.pmf = st.pmf ∧
    ∃ tail, st'.out = st.out ++ tail ∧ tail.length = binSector := by
  simp only [dataStep] at h
  by_cases hlt : st.pmf.length < st.offset + pmfSector
  · rw [if_pos hlt] at h
    exact absurd h (by simp)
  · rw [if_neg hlt] at h
    have hle : st.offset + pmfSector ≤ st.pmf.length := Nat.le_of_not_lt hlt
    have hraw : (slice st.pmf st.offset (st.offset + pmfSector)).length = pmfSector :=
      slice_len st.pmf st.offset pmfSector hle
    cases h
    exact ⟨rfl, rfl,
      encodeDataSector mode lba (slice st.pmf st.offset (st.offset + pmfSector)),
      rfl, encodeDataSector_length mode lba _ hraw⟩

theorem dataStep_err (mode lba : Int) (st : EncSt)
    (h : st.pmf.length < st.offset + pmfSector) :
    dataStep mode lba st = .error (.truncated (st.offset + pmfSector) st.pmf.length) := by
  simp only [dataStep]
  rw [if_pos h]

theorem payloadLoop_ok (flag : Bool) (t : Track) :
    ∀ (n : Nat) (s : Int) (st st' : EncSt),
      payloadLoop flag t n s st = .ok st' →
      st'.offset = st.offset + n * chunkSize t ∧
      st'.pmf.length = st.pmf.length ∧
      (flag = false → st'.pmf = st.pmf) ∧
      ∃ tail, st'.out = st.out ++ tail ∧ tail.length = n * binSector := by
  intro n
  induction n with
  | zero =>
    intro s st st' h
    cases h
    exact ⟨by omega, rfl, fun _ => rfl, [], by simp, by simp⟩
  | succ n ih =>
    intro s st st' h
    rw [payloadLoop] at h
    cases hstep : (if t.Mode = 4 then audioStep flag st else dataStep t.Mode (s + 150) st) with
    | error e => rw [hstep] at h; exact absurd h (by simp)
    | ok st1 =>
      rw [hstep] at h
      have hstep1 : st1.offset = st.offset + chunkSize t ∧
          st1.pmf.length = st.pmf.length ∧
          (flag = false → st1.pmf = st.pmf) ∧
          ∃ tail, st1.out = st.out ++ tail ∧ tail.length = binSector := by
        by_cases hm : t.Mode = 4
        · rw [if_pos hm] at hstep
          have := audioStep_ok flag st st1 hstep
          simpa [chunkSize, hm] using this
        · rw [if_neg hm] at hstep
          have := dataStep_ok t.Mode (s + 150) st st1 hstep
          refine ⟨?_, ?_, ?_, ?_⟩
          · rw [this.1]; simp [chunkSize, hm]
          · rw [this.2.1]
          · intro _; exact this.2.1
          · exact this.2.2
      obtain ⟨ho1, hl1, hp1, tail1, hout1, htl1⟩ := hstep1
      obtain ⟨ho2, hl2, hp2, tail2, hout2, htl2⟩ := ih (s + 1) st1 st' h
      refine ⟨?_, by rw [hl2, hl1], fun hf => by rw [hp2 hf, hp1 hf],
        tail1 ++ tail2, ?_, ?_⟩
      · rw [ho2, ho1, Nat.succ_mul]; omega
      · rw [hout2, hout1, List.append_assoc]
      · rw [List.length_append, htl1, htl2, Nat.succ_mul]; omega

theorem payloadLoop_total (flag : Bool) (t : Track) :
    ∀ (n : Nat) (s : Int) (st : EncSt),
      st.offset + n * chunkSize t ≤ st.pmf.length →
      ∃ st', payloadLoop flag t n s st = .ok st' := by
  intro n
  induction n with
  | zero => intro s st _; exact ⟨st, rfl⟩
  | succ n ih =>
    intro s st hfit
    have hchunk : chunkSize t ≤ Nat.succ n * chunkSize t := by
      rw [Nat.succ_mul]; omega
    have hfit0 : st.offset + chunkSize t ≤ st.pmf.length := by
      rw [Nat.succ_mul] at hfit
      omega
    cases hstep : (if t.Mode = 4 then audioStep flag st else dataStep t.Mode (s + 150) st) with
    | error e =>
      exfalso
      by_cases hm : t.Mode = 4
      · rw [if_pos hm] at hstep
        simp only [audioStep] at hstep
        rw [if_neg (Nat.not_lt.mpr (by simpa [chunkSize, hm] using hfit0))] at hstep
        exact absurd hstep (by simp)
      · rw [if_neg hm] at hstep
        simp only [dataStep] at hstep
        rw [if_neg (Nat.not_lt.mpr (by simpa [chunkSize, hm] using hfit0))] at hstep
        exact absurd hstep (by simp)
    | ok st1 =>
      have hstep1 : st1.offset = st.offset + chunkSize t ∧ st1.pmf.length = st.pmf.length := by
        by_cases hm : t.Mode = 4
        · rw [if_pos hm] at hstep
          have := audioStep_ok flag st st1 hstep
          exact ⟨by rw [this.1]; simp [chunkSize, hm], this.2.1⟩
        · rw [if_neg hm] at hstep
          have := dataStep_ok t.Mode (s + 150) st st1 hstep
          exact ⟨by rw [this.1]; simp [chunkSize, hm], by rw [this.2.1]⟩
      have hfit1 : st1.offset + n * chunkSize t ≤ st1.pmf.length := by
        rw [hstep1.1, hstep1.2]
        rw [Nat.succ_mul] at hfit
        omega
      obtain ⟨st', hst'⟩ := ih (s + 1) st1 hfit1
      refine ⟨st', ?_⟩
      rw [payloadLoop, hstep]
      exact hst'

theorem payloadLoop_err (flag : Bool) (t : Track) :
    ∀ (n : Nat) (s : Int) (st : EncSt),
      st.offset ≤ st.pmf.length →
      st.pmf.length < st.offset + n * chunkSize t →
      ∃ a b, payloadLoop flag t n s st = .error (.truncated a b) := by
  intro n
  induction n with
  | zero => intro s st hle hlt; exfalso; omega
  | succ n ih =>
    intro s st hle hlt
    by_cases hfirst : st.pmf.length < st.offset + chunkSize t
    · by_cases hm : t.Mode = 4
      · refine ⟨st.offset + binSector, st.pmf.length, ?_⟩
        rw [payloadLoop, if_pos hm,
          audioStep_err flag st (by simpa [chunkSize, hm] using hfirst)]
      · refine ⟨st.offset + pmfSector, st.pmf.length, ?_⟩
        rw [payloadLoop, if_neg hm,
          dataStep_err t.Mode (s + 150) st (by simpa [chunkSize, hm] using hfirst)]
    · have hfit : st.offset + chunkSize t ≤ st.pmf.length := Nat.le_of_not_lt hfirst
      cases hstep : (if t.Mode = 4 then audioStep flag st else dataStep t.Mode (s + 150) st) with
      | error e =>
        exfalso
        by_cases hm : t.Mode = 4
        · rw [if_pos hm] at hstep
          simp only [audioStep] at hstep
          rw [if_neg (Nat.not_lt.mpr (by simpa [chunkSize, hm] using hfit))] at hstep
          exact absurd hstep (by simp)
        · rw [if_neg hm] at hstep
          simp only [dataStep] at hstep
          rw [if_neg (Nat.not_lt.mpr (by simpa [chunkSize, hm] using hfit))] at hstep
          exact absurd hstep (by simp)
      | ok st1 =>
        have hstep1 : st1.offset = st.offset + chunkSize t ∧
            st1.pmf.length = st.pmf.length := by
          by_cases hm : t.Mode = 4
          · rw [if_pos hm] at hstep
            have := audioStep_ok flag st st1 hstep
            exact ⟨by rw [this.1]; simp [chunkSize, hm], this.2.1⟩
          · rw [if_neg hm] at hstep
            have := dataStep_ok t.Mode (s + 150) st st1 hstep
            exact ⟨by rw [this.1]; simp [chunkSize, hm], by rw [this.2.1]⟩
        obtain ⟨a, b, hab⟩ := ih (s + 1) st1
          (by rw [hstep1.1, hstep1.2]; omega)
          (by rw [hstep1.1, hstep1.2]; rw [Nat.succ_mul] at hlt; omega)
        refine ⟨a, b, ?_⟩
        rw [payloadLoop, hstep]
        exact hab

theorem pregapLoop_spec (t : Track) :
    ∀ (n : Nat) (s : Int) (st : EncSt),
      (pregapLoop t n s st).pmf = st.pmf ∧
      (pregapLoop t n s st).offset = st.offset ∧
      ∃ tail, (pregapLoop t n s st).out = st.out ++ tail ∧ tail.length = n * binSector := by
  intro n
  induction n with
  | zero => intro s st; exact ⟨rfl, rfl, [], by simp [pregapLoop], by simp⟩
  | succ n ih =>
    intro s st
    rw [pregapLoop]
    obtain ⟨h1, h2, tail, h3, h4⟩ :=
      ih (s + 1) ⟨st.pmf, st.offset,
        st.out ++ pregapSector t.Mode (t.Start - t.Pregap + s + 150)⟩
    refine ⟨h1, h2, pregapSector t.Mode (t.Start - t.Pregap + s + 150) ++ tail, ?_, ?_⟩
    · rw [h3, List.append_assoc]
    · rw [List.length_append, h4, pregapSector_length, Nat.succ_mul]
      have hb : binSector = 2352 := rfl
      omega

theorem trackLoop_ok (flag : Bool) :
    ∀ (ts : List Track) (st st' : EncSt),
      trackLoop flag ts st = .ok st' →
      st'.offset = st.offset + neededBytes ts ∧
      st'.pmf.length = st.pmf.length ∧
      (flag = false → st'.pmf = st.pmf) ∧
      ∃ tail, st'.out = st.out ++ tail ∧ tail.length = binSector * emittedSectors ts := by
  intro ts
  induction ts with
  | nil =>
    intro st st' h
    cases h
    exact ⟨by simp [neededBytes], rfl, fun _ => rfl, [], by simp, by simp [emittedSectors]⟩
  | cons t rest ih =>
    intro st st' h
    rw [trackLoop] at h
    cases hpl : payloadLoop flag t (t.End - t.Start + 1).toNat t.Start
        (pregapLoop t t.Pregap.toNat 0 st) with
    | error e => rw [hpl] at h; exact absurd h (by simp)
    | ok st1 =>
      rw [hpl] at h
      obtain ⟨hg1, hg2, tailg, hg3, hg4⟩ := pregapLoop_spec t t.Pregap.toNat 0 st
      obtain ⟨hp1, hp2, hp3, tailp, hp4, hp5⟩ :=
        payloadLoop_ok flag t (t.End - t.Start + 1).toNat t.Start _ st1 hpl
      obtain ⟨hr1, hr2, hr3, tailr, hr4, hr5⟩ := ih st1 st' h
      have hsc : sectorCount t = (t.End - t.Start + 1).toNat := rfl
      refine ⟨?_, ?_, ?_, tailg ++ (tailp ++ tailr), ?_, ?_⟩
      · rw [hr1, hp1, hg2, neededBytes_cons, hsc]
        omega
      · rw [hr2, hp2, hg1]
      · intro hf
        rw [hr3 hf, hp3 hf, hg1]
      · rw [hr4, hp4, hg3, List.append_assoc, List.append_assoc]
      · rw [List.length_append, List.length_append, hg4, hp5, hr5, emittedSectors_cons,
          hsc]
        ring

theorem trackLoop_total (flag : Bool) :
    ∀ (ts : List Track) (st : EncSt),
      st.offset + neededBytes ts ≤ st.pmf.length →
      ∃ st', trackLoop flag ts st = .ok st' := by
  intro ts
  induction ts with
  | nil => intro st _; exact ⟨st, rfl⟩
  | cons t rest ih =>
    intro st hfit
    rw [neededBytes_cons] at hfit
    obtain ⟨hg1, hg2, -, -, -⟩ := pregapLoop_spec t t.Pregap.toNat 0 st
    have hsc : sectorCount t = (t.End - t.Start + 1).toNat := rfl
    obtain ⟨st1, hst1⟩ :=
      payloadLoop_total flag t (t.End - t.Start + 1).toNat t.Start
        (pregapLoop t t.Pregap.toNat 0 st)
        (by rw [hg2, hg1, ← hsc]; omega)
    obtain ⟨hp1, hp2, -, -⟩ :=
      payloadLoop_ok flag t (t.End - t.Start + 1).toNat t.Start _ st1 hst1
    obtain ⟨st', hst'⟩ := ih st1
      (by rw [hp1, hp2, hg2, hg1, ← hsc]; omega)
    refine ⟨st', ?_⟩
    rw [trackLoop, hst1]
    exact hst'

theorem trackLoop_err (flag : Bool) :
    ∀ (ts : List Track) (st : EncSt),
      st.offset ≤ st.pmf.length →
      st.pmf.length < st.offset + neededBytes ts →
      ∃ a b, trackLoop flag ts st = .error (.truncated a b) := by
  intro ts
  induction ts with
  | nil =>
    intro st hle hlt
    exfalso
    simp [neededBytes] at hlt
    omega
  | cons t rest ih =>
    intro st hle hlt
    rw [neededBytes_cons] at hlt
    obtain ⟨hg1, hg2, -, -, -⟩ := pregapLoop_spec t t.Pregap.toNat 0 st
    have hsc : sectorCount t = (t.End - t.Start + 1).toNat := rfl
    by_cases hfirst : st.pmf.length < st.offset + sectorCount t * chunkSize t
    · obtain ⟨a, b, hab⟩ :=
        payloadLoop_err flag t (t.End - t.Start + 1).toNat t.Start
          (pregapLoop t t.Pregap.toNat 0 st)
          (by rw [hg2, hg1]; omega)
          (by rw [hg2, hg1, ← hsc]; omega)
      refine ⟨a, b, ?_⟩
      rw [trackLoop, hab]
    · have hfit : st.offset + sectorCount t * chunkSize t ≤ st.pmf.length :=
        Nat.le_of_not_lt hfirst
      obtain ⟨st1, hst1⟩ :=
        payloadLoop_total flag t (t.End - t.Start + 1).toNat t.Start
          (pregapLoop t t.Pregap.toNat 0 st)
          (by rw [hg2, hg1, ← hsc]; omega)
      obtain ⟨hp1, hp2, -, -⟩ :=
        payloadLoop_ok flag t (t.End - t.Start + 1).toNat t.Start _ st1 hst1
      obtain ⟨a, b, hab⟩ := ih st1
        (by rw [hp1, hp2, hg2, hg1, ← hsc]; omega)
        (by rw [hp1, hp2, hg2, hg1, ← hsc]; omega)
      refine ⟨a, b, ?_⟩
      rw [trackLoop, hst1]
      exact hab

theorem audioStep_exact (flag : Bool) (pmf out : List Nat) (hlen : pmf.length = binSector) :
    audioStep flag ⟨pmf, 0, out⟩ =
      .ok ⟨if flag then swapPairs pmf else pmf, 0 + binSector,
           out ++ (if flag then swapPairs pmf else pmf)⟩ := by
  have hnlt : ¬(pmf.length < 0 + binSector) := by omega
  have hchunk : slice pmf 0 (0 + binSector) = pmf := by
    unfold slice
    rw [List.drop_zero]
    exact List.take_of_length_le (by omega)
  simp only [audioStep]
  rw [if_neg hnlt, hchunk]
  cases flag
  · rfl
  · rw [show (if true = true then swapPairs pmf else pmf) = swapPairs pmf from rfl]
    rw [show (if (true : Bool) then List.take 0 pmf ++ swapPairs pmf ++ List.drop (0 + binSector) pmf
        else pmf) = List.take 0 pmf ++ swapPairs pmf ++ List.drop (0 + binSector) pmf from rfl]
    rw [List.take_zero, List.drop_eq_nil_of_le (by omega), List.nil_append, List.append_nil]

theorem buildBin_single_audio (flag : Bool) (pmf : List Nat) (hlen : pmf.length = binSector) :
    buildBin flag pmf [⟨1, 4, 0, 0, 0⟩] =
      .ok ((if flag then swapPairs pmf else pmf), (if flag then swapPairs pmf else pmf)) := by
  have hout : (if flag then swapPairs pmf else pmf).length = binSector := by
    cases flag
    · simpa using hlen
    · simpa [swapPairs_length] using hlen
  have hstep := audioStep_exact flag pmf [] hlen
  have h1 : buildBin flag pmf [⟨1, 4, 0, 0, 0⟩] =
      (match (match (match audioStep flag ⟨pmf, 0, []⟩ with
                | Except.error e => (Except.error e : Except BuildError EncSt)
                | Except.ok st1 =>
                  payloadLoop flag ⟨1, 4, 0, 0, 0⟩ 0 (0 + 1) st1) with
              | Except.error e => (Except.error e : Except BuildError EncSt)
              | Except.ok st2 => trackLoop flag [] st2) with
        | Except.error e => Except.error e
        | Except.ok st =>
          if st.offset ≠ st.pmf.length then .error (.unconsumed (st.pmf.length - st.offset))
          else .ok (st.out, st.pmf)) := rfl
  rw [h1, hstep]
  dsimp only [payloadLoop, trackLoop]
  rw [if_neg (show ¬(0 + binSector ≠ (if flag then swapPairs pmf else pmf).length) from
    fun hne => hne (by rw [hout, Nat.zero_add]))]
  rw [List.nil_append]

theorem buildBin_single_audio_msb (pmf : List Nat) (hlen : pmf.length = binSector) :
    buildBin true pmf [⟨1, 4, 0, 0, 0⟩] = .ok (swapPairs pmf, swapPairs pmf) := by
  have h := buildBin_single_audio true pmf hlen
  simpa using h

theorem buildBin_single_audio_lsb (pmf : List Nat) (hlen : pmf.length = binSector) :
    buildBin false pmf [⟨1, 4, 0, 0, 0⟩] = .ok (pmf, pmf) := by
  have h := buildBin_single_audio false pmf hlen
  simpa using h

theorem slice_append_start (B rest : List Nat) (k : Nat) (hB : B.length = k) :
    slice (B ++ rest) 0 k = B := by
  unfold slice
  rw [List.drop_zero, Nat.sub_zero, take_append_exact B rest k hB]

theorem slice_shrink (l : List Nat) (a j k : Nat) (hjk : j ≤ k) :
    slice l a (a + j) = (slice l a (a + k)).take j := by
  unfold slice
  rw [List.take_take, Nat.add_sub_cancel_left, Nat.add_sub_cancel_left,
    Nat.min_eq_left hjk]

theorem slice_split_right (l : List Nat) (a j k : Nat) (hjk : j ≤ k) :
    slice l (a + j) (a + k) = (slice l a (a + k)).drop j := by
  unfold slice
  rw [Nat.add_sub_cancel_left, List.drop_take, List.drop_drop]
  congr 1
  omega

theorem sector_regions (sy hd su da ed pp qp : List Nat)
    (hsy : sy.length = 12) (hhd : hd.length = 4) (hsu : su.length = 8)
    (hda : da.length = 2048) (hed : ed.length = 4) (hpp : pp.length = 172)
    (hqp : qp.length = 104) :
    (sy ++ hd ++ su ++ da ++ ed ++ pp ++ qp).length = 2352 ∧
    slice (sy ++ hd ++ su ++ da ++ ed ++ pp ++ qp) 0 12 = sy ∧
    slice (sy ++ hd ++ su ++ da ++ ed ++ pp ++ qp) 12 16 = hd ∧
    slice (sy ++ hd ++ su ++ da ++ ed ++ pp ++ qp) 16 24 = su ∧
    slice (sy ++ hd ++ su ++ da ++ ed ++ pp ++ qp) 24 2072 = da ∧
    slice (sy ++ hd ++ su ++ da ++ ed ++ pp ++ qp) 2072 2076 = ed ∧
    slice (sy ++ hd ++ su ++ da ++ ed ++ pp ++ qp) 2076 2248 = pp ∧
    slice (sy ++ hd ++ su ++ da ++ ed ++ pp ++ qp) 2248 2352 = qp ∧
    slice (sy ++ hd ++ su ++ da ++ ed ++ pp ++ qp) 16 2072 = su ++ da ∧
    slice (sy ++ hd ++ su ++ da ++ ed ++ pp ++ qp) 12 2076 = hd ++ su ++ da ++ ed ∧
    slice (sy ++ hd ++ su ++ da ++ ed ++ pp ++ qp) 12 2248 = hd ++ su ++ da ++ ed ++ pp := by
  refine ⟨?_, ?_, ?_, ?_, ?_, ?_, ?_, ?_, ?_, ?_, ?_⟩
  · simp only [List.length_append, hsy, hhd, hsu, hda, hed, hpp, hqp]
  · rw [show sy ++ hd ++ su ++ da ++ ed ++ pp ++ qp
        = sy ++ (hd ++ (su ++ (da ++ (ed ++ (pp ++ qp))))) from by
      simp [List.append_assoc]]
    exact slice_append_start _ _ 12 hsy
  · rw [show (12 : Nat) = 12 + 0 from rfl, show (16 : Nat) = 12 + 4 from rfl,
      show sy ++ hd ++ su ++ da ++ ed ++ pp ++ qp
        = sy ++ (hd ++ (su ++ (da ++ (ed ++ (pp ++ qp))))) from by
      simp [List.append_assoc]]
    rw [show (12 : Nat) + 0 = 12 from rfl]
    exact slice_append_middle _ _ _ 12 4 hsy hhd
  · rw [show (24 : Nat) = 16 + 8 from rfl,
      show sy ++ hd ++ su ++ da ++ ed ++ pp ++ qp
        = (sy ++ hd) ++ (su ++ (da ++ (ed ++ (pp ++ qp)))) from by
      simp [List.append_assoc]]
    exact slice_append_middle _ _ _ 16 8
      (by simp only [List.length_append, hsy, hhd]) hsu
  · rw [show (2072 : Nat) = 24 + 2048 from rfl,
      show sy ++ hd ++ su ++ da ++ ed ++ pp ++ qp
        = (sy ++ hd ++ su) ++ (da ++ (ed ++ (pp ++ qp))) from by
      simp [List.append_assoc]]
    exact slice_append_middle _ _ _ 24 2048
      (by simp only [List.length_append, hsy, hhd, hsu]) hda
  · rw [show (2076 : Nat) = 2072 + 4 from rfl,
      show sy ++ hd ++ su ++ da ++ ed ++ pp ++ qp
        = (sy ++ hd ++ su ++ da) ++ (ed ++ (pp ++ qp)) from by
      simp [List.append_assoc]]
    exact slice_append_middle _ _ _ 2072 4
      (by simp only [List.length_append, hsy, hhd, hsu, hda]) hed
  · rw [show (2248 : Nat) = 2076 + 172 from rfl,
      show sy ++ hd ++ su ++ da ++ ed ++ pp ++ qp
        = (sy ++ hd ++ su ++ da ++ ed) ++ (pp ++ qp) from by
      simp [List.append_assoc]]
    exact slice_append_middle _ _ _ 2076 172
      (by simp only [List.length_append, hsy, hhd, hsu, hda, hed]) hpp
  · rw [show (2352 : Nat) = 2248 + 104 from rfl,
      show sy ++ hd ++ su ++ da ++ ed ++ pp ++ qp
        = (sy ++ hd ++ su ++ da ++ ed ++ pp) ++ (qp ++ []) from by
      simp [List.append_assoc]]
    exact slice_append_middle _ _ _ 2248 104
      (by simp only [List.length_append, hsy, hhd, hsu, hda, hed, hpp]) hqp
  · rw [show (2072 : Nat) = 16 + 2056 from rfl,
      show sy ++ hd ++ su ++ da ++ ed ++ pp ++ qp
        = (sy ++ hd) ++ ((su ++ da) ++ (ed ++ (pp ++ qp))) from by
      simp [List.append_assoc]]
    exact slice_append_middle _ _ _ 16 2056
      (by simp only [List.length_append, hsy, hhd])
      (by simp only [List.length_append, hsu, hda])
  · rw [show (2076 : Nat) = 12 + 2064 from rfl,
      show sy ++ hd ++ su ++ da ++ ed ++ pp ++ qp
        = sy ++ ((hd ++ su ++ da ++ ed) ++ (pp ++ qp)) from by
      simp [List.append_assoc]]
    exact slice_append_middle _ _ _ 12 2064 hsy
      (by simp only [List.length_append, hhd, hsu, hda, hed])
  · rw [show (2248 : Nat) = 12 + 2236 from rfl,
      show sy ++ hd ++ su ++ da ++ ed ++ pp ++ qp
        = sy ++ ((hd ++ su ++ da ++ ed ++ pp) ++ (qp ++ [])) from by
      simp [List.append_assoc]]
    exact slice_append_middle _ _ _ 12 2236 hsy
      (by simp only [List.length_append, hhd, hsu, hda, hed, hpp])

theorem encodeDataSector_slices (mode l : Int) (raw : List Nat)
    (hlen : raw.length = 2056) :
    (encodeDataSector mode l raw).length = 2352 ∧
    slice (encodeDataSector mode l raw) 0 12 = syncBytes ∧
    slice (encodeDataSector mode l raw) 12 15 = [toBCD (lbaToMSF l).1, toBCD (lbaToMSF l).2.1, toBCD (lbaToMSF l).2.2] ∧
    slice (encodeDataSector mode l raw) 15 16 = [byteOfInt mode] ∧
    slice (encodeDataSector mode l raw) 16 24 = raw.take 8 ∧
    slice (encodeDataSector mode l raw) 24 2072 = raw.drop 8 ∧
    slice (encodeDataSector mode l raw) 2072 2076 =
      computeEDC (slice (encodeDataSector mode l raw) 16 2072) ∧
    pParityLFSR (slice (encodeDataSector mode l raw) 12 2076) =
      some (slice (encodeDataSector mode l raw) 2076 2248) ∧
    qParityLFSR (slice (encodeDataSector mode l raw) 12 2248) =
      some (slice (encodeDataSector mode l raw) 2248 2352) := by
  have hsu : (raw.take 8).length = 8 := by rw [List.length_take]; omega
  have hda : (raw.drop 8).length = 2048 := by rw [List.length_drop, hlen]
  have hsec : encodeDataSector mode l raw = syncBytes ++ msfHeader l mode ++ raw.take 8 ++ raw.drop 8 ++ computeEDC ((syncBytes ++ msfHeader l mode ++ raw.take 8 ++ raw.drop 8).drop 16) ++ pParityBody ((syncBytes ++ msfHeader l mode ++ raw.take 8 ++ raw.drop 8 ++ computeEDC ((syncBytes ++ msfHeader l mode ++ raw.take 8 ++ raw.drop 8).drop 16)).drop 12) ++ qParityBody ((syncBytes ++ msfHeader l mode ++ raw.take 8 ++ raw.drop 8 ++ computeEDC ((syncBytes ++ msfHeader l mode ++ raw.take 8 ++ raw.drop 8).drop 16) ++ pParityBody ((syncBytes ++ msfHeader l mode ++ raw.take 8 ++ raw.drop 8 ++ computeEDC ((syncBytes ++ msfHeader l mode ++ raw.take 8 ++ raw.drop 8).drop 16)).drop 12)).drop 12) := rfl
  have hpre16 : (syncBytes ++ msfHeader l mode ++ raw.take 8 ++ raw.drop 8).drop 16 = raw.take 8 ++ raw.drop 8 := by
    rw [show syncBytes ++ msfHeader l mode ++ raw.take 8 ++ raw.drop 8 = (syncBytes ++ msfHeader l mode) ++ (raw.take 8 ++ raw.drop 8) from by
      simp [List.append_assoc]]
    exact drop_append_exact _ _ 16 rfl
  have hmain := sector_regions syncBytes (msfHeader l mode) (raw.take 8) (raw.drop 8)
    (computeEDC ((syncBytes ++ msfHeader l mode ++ raw.take 8 ++ raw.drop 8).drop 16)) (pParityBody ((syncBytes ++ msfHeader l mode ++ raw.take 8 ++ raw.drop 8 ++ computeEDC ((syncBytes ++ msfHeader l mode ++ raw.take 8 ++ raw.drop 8).drop 16)).drop 12)) (qParityBody ((syncBytes ++ msfHeader l mode ++ raw.take 8 ++ raw.drop 8 ++ computeEDC ((syncBytes ++ msfHeader l mode ++ raw.take 8 ++ raw.drop 8).drop 16) ++ pParityBody ((syncBytes ++ msfHeader l mode ++ raw.take 8 ++ raw.drop 8 ++ computeEDC ((syncBytes ++ msfHeader l mode ++ raw.take 8 ++ raw.drop 8).drop 16)).drop 12)).drop 12))
    syncBytes_length (msfHeader_length l mode) hsu hda
    (computeEDC_length _) (pParityBody_length _) (qParityBody_length _)
  obtain ⟨hL, h0, h1216, h1624, h24, h2072, h2076, h2248, h16b, h12b, h12c⟩ := hmain
  have hEDlen : (computeEDC ((syncBytes ++ msfHeader l mode ++ raw.take 8 ++ raw.drop 8).drop 16)).length = 4 := computeEDC_length _
  have h12we : (syncBytes ++ msfHeader l mode ++ raw.take 8 ++ raw.drop 8 ++ computeEDC ((syncBytes ++ msfHeader l mode ++ raw.take 8 ++ raw.drop 8).drop 16)).drop 12 =
      msfHeader l mode ++ raw.take 8 ++ raw.drop 8 ++ computeEDC ((syncBytes ++ msfHeader l mode ++ raw.take 8 ++ raw.drop 8).drop 16) := by
    rw [show syncBytes ++ msfHeader l mode ++ raw.take 8 ++ raw.drop 8 ++ computeEDC ((syncBytes ++ msfHeader l mode ++ raw.take 8 ++ raw.drop 8).drop 16) = syncBytes ++
        (msfHeader l mode ++ raw.take 8 ++ raw.drop 8 ++ computeEDC ((syncBytes ++ msfHeader l mode ++ raw.take 8 ++ raw.drop 8).drop 16)) from by
      simp [List.append_assoc]]
    exact drop_append_exact _ _ 12 rfl
  have h12wp : (syncBytes ++ msfHeader l mode ++ raw.take 8 ++ raw.drop 8 ++ computeEDC ((syncBytes ++ msfHeader l mode ++ raw.take 8 ++ raw.drop 8).drop 16) ++ pParityBody ((syncBytes ++ msfHeader l mode ++ raw.take 8 ++ raw.drop 8 ++ computeEDC ((syncBytes ++ msfHeader l mode ++ raw.take 8 ++ raw.drop 8).drop 16)).drop 12)).drop 12 =
      msfHeader l mode ++ raw.take 8 ++ raw.drop 8 ++ computeEDC ((syncBytes ++ msfHeader l mode ++ raw.take 8 ++ raw.drop 8).drop 16) ++ pParityBody ((syncBytes ++ msfHeader l mode ++ raw.take 8 ++ raw.drop 8 ++ computeEDC ((syncBytes ++ msfHeader l mode ++ raw.take 8 ++ raw.drop 8).drop 16)).drop 12) := by
    rw [show syncBytes ++ msfHeader l mode ++ raw.take 8 ++ raw.drop 8 ++ computeEDC ((syncBytes ++ msfHeader l mode ++ raw.take 8 ++ raw.drop 8).drop 16) ++ pParityBody ((syncBytes ++ msfHeader l mode ++ raw.take 8 ++ raw.drop 8 ++ computeEDC ((syncBytes ++ msfHeader l mode ++ raw.take 8 ++ raw.drop 8).drop 16)).drop 12) = syncBytes ++
        (msfHeader l mode ++ raw.take 8 ++ raw.drop 8 ++ computeEDC ((syncBytes ++ msfHeader l mode ++ raw.take 8 ++ raw.drop 8).drop 16) ++ pParityBody ((syncBytes ++ msfHeader l mode ++ raw.take 8 ++ raw.drop 8 ++ computeEDC ((syncBytes ++ msfHeader l mode ++ raw.take 8 ++ raw.drop 8).drop 16)).drop 12)) from by
      simp [List.append_assoc]]
    exact drop_append_exact _ _ 12 rfl
  refine ⟨?_, ?_, ?_, ?_, ?_, ?_, ?_, ?_, ?_⟩
  · rw [hsec]; exact hL
  · rw [hsec]; exact h0
  · rw [hsec, show (15 : Nat) = 12 + 3 from rfl, slice_shrink _ 12 3 4 (by omega),
      show (12 : Nat) + 4 = 16 from rfl, h1216]
    rfl
  · rw [hsec, show (16 : Nat) = 12 + 4 from rfl, show (15 : Nat) = 12 + 3 from rfl,
      slice_split_right _ 12 3 4 (by omega), show (12 : Nat) + 4 = 16 from rfl, h1216]
    rfl
  · rw [hsec]; exact h1624
  · rw [hsec]; exact h24
  · rw [hsec, h16b, h2072, hpre16]
  · rw [hsec, h12b, h2076]
    have hplen : (msfHeader l mode ++ raw.take 8 ++ raw.drop 8 ++ computeEDC ((syncBytes ++ msfHeader l mode ++ raw.take 8 ++ raw.drop 8).drop 16)).length = 2064 := by
      simp only [List.length_append, msfHeader_length, hsu, hda, hEDlen]
    unfold pParityLFSR
    rw [if_pos hplen, h12we]
  · rw [hsec, h12c, h2248]
    have hqlen : (msfHeader l mode ++ raw.take 8 ++ raw.drop 8 ++ computeEDC ((syncBytes ++ msfHeader l mode ++ raw.take 8 ++ raw.drop 8).drop 16) ++ pParityBody ((syncBytes ++ msfHeader l mode ++ raw.take 8 ++ raw.drop 8 ++ computeEDC ((syncBytes ++ msfHeader l mode ++ raw.take 8 ++ raw.drop 8).drop 16)).drop 12)).length
        = 2236 := by
      simp only [List.length_append, msfHeader_length, hsu, hda, hEDlen,
        pParityBody_length]
    unfold qParityLFSR
    rw [if_pos hqlen, h12wp]

theorem c7_build_structure (pmf : List Nat) (hlen : pmf.length = 43784) :
    ∃ out : List Nat,
      buildBin false pmf [⟨1, 2, 0, 10, 0⟩, ⟨2, 4, 12, 20, 1⟩] = .ok (out, pmf) ∧
      out.length = 49392 ∧
      slice out 25872 28224 = List.replicate 2352 0 := by
  have hc1 : chunkSize ⟨1, 2, 0, 10, 0⟩ = 2056 := rfl
  have hc2 : chunkSize ⟨2, 4, 12, 20, 1⟩ = 2352 := rfl
  obtain ⟨st1, hst1⟩ :=
    payloadLoop_total false ⟨1, 2, 0, 10, 0⟩ 11 0 ⟨pmf, 0, []⟩
      (show (⟨pmf, 0, []⟩ : EncSt).offset + 11 * chunkSize ⟨1, 2, 0, 10, 0⟩ ≤
          (⟨pmf, 0, []⟩ : EncSt).pmf.length by rw [hc1]; show 0 + 11 * 2056 ≤ pmf.length; omega)
  obtain ⟨ho1, hl1, hpf1, tail1, hout1, htl1⟩ :=
    payloadLoop_ok false ⟨1, 2, 0, 10, 0⟩ 11 0 ⟨pmf, 0, []⟩ st1 hst1
  have hb : binSector = 2352 := rfl
  have ho1n : st1.offset = 22616 := by
    have h0 : (⟨pmf, 0, []⟩ : EncSt).offset = 0 := rfl
    rw [ho1, hc1, h0]
  have hl1n : st1.pmf.length = 43784 := by
    rw [hl1]; show pmf.length = 43784; exact hlen
  have hpf1n : st1.pmf = pmf := hpf1 rfl
  have hout1n : st1.out = tail1 := by rw [hout1]; exact List.nil_append tail1
  have htl1n : tail1.length = 25872 := by rw [htl1, hb]
  have hpg : pregapLoop ⟨2, 4, 12, 20, 1⟩ 1 0 st1 =
      ⟨st1.pmf, st1.offset, st1.out ++ List.replicate 2352 0⟩ := by
    rw [pregapLoop, pregapLoop]
    rw [show pregapSector (⟨2, 4, 12, 20, 1⟩ : Track).Mode
        ((⟨2, 4, 12, 20, 1⟩ : Track).Start - (⟨2, 4, 12, 20, 1⟩ : Track).Pregap + 0 + 150)
        = List.replicate 2352 0 from by
      unfold pregapSector
      rw [if_neg (by decide)]]
  obtain ⟨st2, hst2⟩ :=
    payloadLoop_total false ⟨2, 4, 12, 20, 1⟩ 9 12
      ⟨st1.pmf, st1.offset, st1.out ++ List.replicate 2352 0⟩
      (show st1.offset + 9 * chunkSize ⟨2, 4, 12, 20, 1⟩ ≤ st1.pmf.length by
        rw [hc2, ho1n, hl1n])
  obtain ⟨ho2, hl2, hpf2, tail2, hout2, htl2⟩ :=
    payloadLoop_ok false ⟨2, 4, 12, 20, 1⟩ 9 12
      ⟨st1.pmf, st1.offset, st1.out ++ List.replicate 2352 0⟩ st2 hst2
  have ho2n : st2.offset = 43784 := by
    rw [ho2, hc2]; show st1.offset + 9 * 2352 = 43784; rw [ho1n]
  have hl2n : st2.pmf.length = 43784 := by
    rw [hl2]; exact hl1n
  have hpf2n : st2.pmf = pmf := by
    rw [hpf2 rfl]; exact hpf1n
  have hout2n : st2.out = tail1 ++ (List.replicate 2352 0 ++ tail2) := by
    rw [hout2]
    show st1.out ++ List.replicate 2352 0 ++ tail2 = _
    rw [hout1n, List.append_assoc]
  have htl2n : tail2.length = 21168 := by rw [htl2, hb]
  have h1 : buildBin false pmf [(⟨1, 2, 0, 10, 0⟩ : Track), ⟨2, 4, 12, 20, 1⟩] =
      (match (match payloadLoop false ⟨1, 2, 0, 10, 0⟩ 11 0 ⟨pmf, 0, []⟩ with
              | Except.error e => (Except.error e : Except BuildError EncSt)
              | Except.ok st1 =>
                match payloadLoop false ⟨2, 4, 12, 20, 1⟩ 9 12
                    (pregapLoop ⟨2, 4, 12, 20, 1⟩ 1 0 st1) with
                | Except.error e => (Except.error e : Except BuildError EncSt)
                | Except.ok st2 => trackLoop false [] st2) with
        | Except.error e => Except.error e
        | Except.ok st =>
          if st.offset ≠ st.pmf.length then .error (.unconsumed (st.pmf.length - st.offset))
          else .ok (st.out, st.pmf)) := rfl
  refine ⟨st2.out, ?_, ?_, ?_⟩
  · rw [h1, hst1]
    dsimp only
    rw [hpg, hst2]
    dsimp only [trackLoop]
    rw [if_neg (show ¬(st2.offset ≠ st2.pmf.length) from
      fun hne => hne (by rw [ho2n, hl2n]))]
    rw [hpf2n]
  · rw [hout2n, List.length_append, List.length_append, htl1n, htl2n,
      List.length_replicate]
  · rw [hout2n, show (28224 : Nat) = 25872 + 2352 from rfl]
    exact slice_append_middle tail1 (List.replicate 2352 0) tail2 25872 2352
      htl1n (List.length_replicate 2352 0)

theorem validateGo_ok_facts :
    ∀ (ts : List Track) (i : Nat) (pe : Int) (out : List Track),
      validateGo i pe ts = .ok out →
      rowsOk i pe ts ∧ out.map stripPregap = ts.map stripPregap ∧ pregapsOk i pe out := by
  intro ts
  induction ts with
  | nil =>
    intro i pe out h
    cases h
    exact ⟨trivial, rfl, trivial⟩
  | cons t rest ih =>
    intro i pe out h
    rw [validateGo] at h
    by_cases h1 : ¬(t.Mode = 2 ∨ t.Mode = 4)
    · rw [if_pos h1] at h; exact absurd h (by simp)
    rw [if_neg h1] at h
    by_cases h2 : t.Num ≠ (i : Int) + 1
    · rw [if_pos h2] at h; exact absurd h (by simp)
    rw [if_neg h2] at h
    by_cases h3 : t.Start > t.End
    · rw [if_pos h3] at h; exact absurd h (by simp)
    rw [if_neg h3] at h
    by_cases h4 : i ≠ 0 ∧ t.Start - pe - 1 < 0
    · rw [if_pos h4] at h; exact absurd h (by simp)
    rw [if_neg h4] at h
    by_cases h5 : i ≠ 0 ∧ t.Start ≤ pe
    · rw [if_pos h5] at h; exact absurd h (by simp)
    rw [if_neg h5] at h
    cases hrec : validateGo (i + 1) t.End rest with
    | error e => rw [hrec] at h; exact absurd h (by simp)
    | ok ts2 =>
      rw [hrec] at h
      have h6 : Except.ok
          ({ t with Pregap := if i = 0 then 0 else t.Start - pe - 1 } :: ts2) =
          (Except.ok out : Except String (List Track)) := h
      obtain ⟨hrows, hstrip, hpg⟩ := ih (i + 1) t.End ts2 hrec
      cases h6
      refine ⟨⟨not_not.mp h1, not_not.mp h2, Int.not_lt.mp h3, ?_, hrows⟩, ?_, ?_, hpg⟩
      · by_cases hi : i = 0
        · exact Or.inl hi
        · refine Or.inr ?_
          rcases not_and_or.mp h5 with hc | hc
          · omega
          · exact Int.not_le.mp hc
      · simp only [List.map_cons, hstrip]
        rfl
      · rfl

theorem validateGo_total :
    ∀ (ts : List Track) (i : Nat) (pe : Int),
      rowsOk i pe ts → ∃ out, validateGo i pe ts = .ok out := by
  intro ts
  induction ts with
  | nil => intro i pe _; exact ⟨[], rfl⟩
  | cons t rest ih =>
    intro i pe hr
    obtain ⟨hm, hn, hse, hlink, hrest⟩ := hr
    obtain ⟨out2, hout2⟩ := ih (i + 1) t.End hrest
    have hA : ¬(i ≠ 0 ∧ t.Start - pe - 1 < 0) := by
      rcases hlink with hi | hlt
      · exact fun hc => hc.1 hi
      · exact fun hc => absurd hc.2 (by omega)
    have hB : ¬(i ≠ 0 ∧ t.Start ≤ pe) := by
      rcases hlink with hi | hlt
      · exact fun hc => hc.1 hi
      · exact fun hc => absurd hc.2 (by omega)
    refine ⟨{ t with Pregap := if i = 0 then 0 else t.Start - pe - 1 } :: out2, ?_⟩
    rw [validateGo, if_neg (not_not.mpr hm), if_neg (not_not.mpr hn),
      if_neg (Int.not_lt.mpr hse), if_neg hA, if_neg hB, hout2]

theorem stripPregap_fields (a b : Track) (h : stripPregap a = stripPregap b) :
    a.Num = b.Num ∧ a.Mode = b.Mode ∧ a.Start = b.Start ∧ a.End = b.End := by
  unfold stripPregap at h
  exact ⟨congrArg (fun p => p.1) h, congrArg (fun p => p.2.1) h,
    congrArg (fun p => p.2.2.1) h, congrArg (fun p => p.2.2.2) h⟩

theorem rowsOk_congr :
    ∀ (a b : List Track) (i : Nat) (pe : Int),
      a.map stripPregap = b.map stripPregap → (rowsOk i pe a ↔ rowsOk i pe b) := by
  intro a
  induction a with
  | nil =>
    intro b i pe h
    cases b with
    | nil => exact Iff.rfl
    | cons tb rb => exact absurd h (by simp)
  | cons ta ra ih =>
    intro b i pe h
    cases b with
    | nil => exact absurd h (by simp)
    | cons tb rb =>
      simp only [List.map_cons, List.cons.injEq] at h
      obtain ⟨hnum, hmode, hstart, hend⟩ := stripPregap_fields ta tb h.1
      unfold rowsOk
      rw [hnum, hmode, hstart, hend, ih rb (i + 1) tb.End h.2]

theorem expectedSize_congr :
    ∀ (a b : List Track),
      a.map stripPregap = b.map stripPregap → expectedSize a = expectedSize b := by
  intro a
  induction a with
  | nil =>
    intro b h
    cases b with
    | nil => rfl
    | cons tb rb => exact absurd h (by simp)
  | cons ta ra ih =>
    intro b h
    cases b with
    | nil => exact absurd h (by simp)
    | cons tb rb =>
      simp only [List.map_cons, List.cons.injEq] at h
      obtain ⟨hnum, hmode, hstart, hend⟩ := stripPregap_fields ta tb h.1
      rw [expectedSize_cons, expectedSize_cons, hmode, hstart, hend, ih rb h.2]

theorem parseFF_ok_facts :
    ∀ (ne : Int) (ts : List Track) (len : Int) (out : List Track),
      parseFF ne ts len = .ok out →
      rowsOk 0 0 out ∧ pregapsOk 0 0 out ∧ expectedSize out = len ∧
      rowsOk 0 0 ts ∧ out.map stripPregap = ts.map stripPregap := by
  intro ne ts len out h
  rw [parseFF] at h
  by_cases h1 : ts.length = 0
  · rw [if_pos h1] at h; exact absurd h (by simp)
  rw [if_neg h1] at h
  by_cases h2 : ne > 0 ∧ (ts.length : Int) ≠ ne
  · rw [if_pos h2] at h; exact absurd h (by simp)
  rw [if_neg h2] at h
  cases hv : validateGo 0 0 ts with
  | error e => rw [hv] at h; exact absurd h (by simp)
  | ok ts2 =>
    rw [hv] at h
    have h3 : (if expectedSize ts2 ≠ len then
        (Except.error "PMF length mismatch" : Except String (List Track))
      else .ok ts2) = .ok out := h
    by_cases h4 : expectedSize ts2 ≠ len
    · rw [if_pos h4] at h3; exact absurd h3 (by simp)
    rw [if_neg h4] at h3
    cases h3
    obtain ⟨hrows, hstrip, hpg⟩ := validateGo_ok_facts ts 0 0 out hv
    exact ⟨(rowsOk_congr out ts 0 0 hstrip).mpr hrows, hpg, not_not.mp h4, hrows, hstrip⟩

theorem parseFF_total :
    ∀ (ne : Int) (ts : List Track) (len : Int),
      ts ≠ [] → ¬(0 < ne ∧ (ts.length : Int) ≠ ne) → rowsOk 0 0 ts →
      expectedSize ts = len → ∃ out, parseFF ne ts len = .ok out := by
  intro ne ts len hne hcount hrows hsize
  obtain ⟨out, hout⟩ := validateGo_total ts 0 0 hrows
  obtain ⟨-, hstrip, -⟩ := validateGo_ok_facts ts 0 0 out hout
  refine ⟨out, ?_⟩
  rw [parseFF, if_neg (fun h0 => hne (List.length_eq_zero.mp h0)), if_neg hcount, hout]
  show (if expectedSize out ≠ len then
      (Except.error "PMF length mismatch" : Except String (List Track))
    else .ok out) = .ok out
  rw [if_neg (not_not.mpr (by rw [expectedSize_congr out ts hstrip, hsize]))]

theorem numberedFrom_iff_get :
    ∀ (out : List Track) (i : Nat),
      numberedFrom i out ↔
        ∀ (j : Nat) (h : j < out.length), (out.get ⟨j, h⟩).Num = ((i + j : Nat) : Int) + 1 := by
  intro out
  induction out with
  | nil => intro i; simp [numberedFrom]
  | cons t r ih =>
    intro i
    unfold numberedFrom
    rw [ih (i + 1)]
    constructor
    · rintro ⟨hnum, hrest⟩ j h
      cases j with
      | zero => simpa using hnum
      | succ j =>
        have := hrest j (by simpa using h)
        show (r.get ⟨j, _⟩).Num = _
        rw [this]
        congr 1
        push_cast
        ring
    · intro hall
      refine ⟨by simpa using hall 0 (by simp), fun j h => ?_⟩
      have := hall (j + 1) (by simpa using h)
      rw [show ((t :: r).get ⟨j + 1, _⟩) = r.get ⟨j, h⟩ from rfl] at this
      rw [this]
      congr 1
      push_cast
      ring

theorem chainFromEnd_iff_chain :
    ∀ (r : List Track) (t : Track),
      chainFromEnd t.End r ↔ List.Chain (fun a b => a.End < b.Start) t r := by
  intro r
  induction r with
  | nil => intro t; simp [chainFromEnd]
  | cons b r2 ih =>
    intro t
    unfold chainFromEnd
    rw [List.chain_cons, ih b]

theorem rowsOk_pos_iff :
    ∀ (out : List Track) (i : Nat) (pe : Int), 0 < i →
      (rowsOk i pe out ↔
        ((∀ t ∈ out, (t.Mode = 2 ∨ t.Mode = 4) ∧ t.Start ≤ t.End) ∧
         numberedFrom i out ∧ chainFromEnd pe out)) := by
  intro out
  induction out with
  | nil => intro i pe _; simp [rowsOk, numberedFrom, chainFromEnd]
  | cons t r ih =>
    intro i pe hi
    unfold rowsOk numberedFrom chainFromEnd
    rw [ih (i + 1) t.End (by omega)]
    have hlink : (i = 0 ∨ pe < t.Start) ↔ pe < t.Start := by omega
    rw [hlink]
    simp only [List.mem_cons, forall_eq_or_imp]
    tauto

theorem rowsOk_zero_iff :
    ∀ (out : List Track) (pe : Int),
      rowsOk 0 pe out ↔
        ((∀ t ∈ out, (t.Mode = 2 ∨ t.Mode = 4) ∧ t.Start ≤ t.End) ∧
         numberedFrom 0 out ∧ List.Chain' (fun a b => a.End < b.Start) out) := by
  intro out pe
  cases out with
  | nil => simp [rowsOk, numberedFrom, List.Chain']
  | cons t r =>
    unfold rowsOk numberedFrom
    rw [rowsOk_pos_iff r 1 t.End (by omega)]
    have hch : List.Chain' (fun a b : Track => a.End < b.Start) (t :: r) ↔
        List.Chain (fun a b : Track => a.End < b.Start) t r := Iff.rfl
    rw [hch, ← chainFromEnd_iff_chain r t]
    simp only [List.mem_cons, forall_eq_or_imp]
    tauto

theorem pregapsOk_head :
    ∀ (out : List Track) (pe : Int), pregapsOk 0 pe out →
      ∀ t0, out.head? = some t0 → t0.Pregap = 0 := by
  intro out pe hpg t0 h0
  cases out with
  | nil => exact absurd h0 (by simp)
  | cons t r =>
    have ht : t = t0 := by simpa using h0
    have := hpg.1
    rw [if_pos rfl] at this
    rw [← ht]
    exact this

theorem pregapsOk_get :
    ∀ (out : List Track) (i : Nat) (pe : Int), pregapsOk i pe out →
      ∀ (j : Nat) (h : j + 1 < out.length),
        (out.get ⟨j + 1, h⟩).Pregap =
          (out.get ⟨j + 1, h⟩).Start - (out.get ⟨j, Nat.lt_of_succ_lt h⟩).End - 1 := by
  intro out
  induction out with
  | nil => intro i pe _ j h; exact absurd h (by simp)
  | cons t r ih =>
    intro i pe hpg j h
    cases j with
    | zero =>
      cases r with
      | nil => exact absurd h (by simp)
      | cons b r2 =>
        have := hpg.2.1
        rw [if_neg (Nat.succ_ne_zero i)] at this
        exact this
    | succ j =>
      exact ih (i + 1) t.End hpg.2 j (by simpa using h)

theorem buildBin_out_length (flag : Bool) (pmf : List Nat) (ts : List Track)
    (res : List Nat × List Nat) (h : buildBin flag pmf ts = .ok res) :
    res.1.length = binSector * emittedSectors ts := by
  unfold buildBin at h
  cases htl : trackLoop flag ts ⟨pmf, 0, []⟩ with
  | error e => rw [htl] at h; exact absurd h (by simp)
  | ok st =>
    rw [htl] at h
    have h2 : (if st.offset ≠ st.pmf.length then
          (Except.error (BuildError.unconsumed (st.pmf.length - st.offset)) :
            Except BuildError (List Nat × List Nat))
        else .ok (st.out, st.pmf)) = .ok res := h
    by_cases hne : st.offset ≠ st.pmf.length
    · rw [if_pos hne] at h2; exact absurd h2 (by simp)
    · rw [if_neg hne] at h2
      cases h2
      obtain ⟨-, -, -, tail, hout, htail⟩ := trackLoop_ok flag ts ⟨pmf, 0, []⟩ st htl
      show st.out.length = binSector * emittedSectors ts
      rw [hout]
      show ([] ++ tail).length = binSector * emittedSectors ts
      rw [List.nil_append, htail]

theorem edcStep_eq_round (r : Nat) : edcStep r = edcRoundSpec r := by
  unfold edcStep edcRoundSpec
  rw [Nat.and_one_is_mod]
  rcases Nat.mod_two_eq_zero_or_one r with h | h <;> simp [h]

theorem edcRoundsSpec_comm (n r : Nat) :
    edcRoundsSpec n (edcRoundSpec r) = edcRoundSpec (edcRoundsSpec n r) := by
  induction n generalizing r with
  | zero => rfl
  | succ n ih => simpa [edcRoundsSpec] using ih (edcRoundSpec r)

theorem foldl_edcStep_eq (n r : Nat) :
    (List.range n).foldl (fun a _ => edcStep a) r = edcRoundsSpec n r := by
  induction n generalizing r with
  | zero => rfl
  | succ n ih =>
    rw [List.range_succ, List.foldl_append, ih]
    simp only [List.foldl, edcStep_eq_round]
    exact (edcRoundsSpec_comm n r).symm

theorem edcLUT_eq_tableSpec (i : Nat) : edcLUT i = edcTableSpec i :=
  foldl_edcStep_eq 8 i

theorem edcAccum_eq_spec (data : List Nat) (acc : Nat) :
    data.foldl (fun edc b => (edc >>> 8) ^^^ edcLUT ((edc % 256) ^^^ (b % 256))) acc =
      edcAccumSpec acc data := by
  induction data generalizing acc with
  | nil => rfl
  | cons b rest ih => rw [List.foldl_cons, ih, edcAccumSpec, edcLUT_eq_tableSpec]

/-! ## Theorems -/

/-- **C2**: `computeEDC` on any byte span equals the checksum described by
the spec: zero-initialized table-driven accumulator over the 256-entry
table built from reflected polynomial 0xD8018001 by the 8-round
shift-reduce construction, no initial or final xor mask, emitted as 4
little-endian bytes. -/
theorem computeEDC_meets_spec :
    ∀ data : List Nat,
      computeEDC data = computeEDCSpec data ∧ edcAccum data = edcAccumSpec 0 data := by
  intro data
  have h : edcAccum data = edcAccumSpec 0 data := edcAccum_eq_spec data 0
  exact ⟨by simp [computeEDC, computeEDCSpec, le32Bytes, h], h⟩

/-- **C8**: the parity generators accept exactly their fixed input
lengths (2064 bytes for P, 2236 for Q), returning 172- and 104-byte
parity blocks; any other length fails fast (modelled as `none`); and both
are deterministic. -/
theorem parity_fixed_length_and_pure :
    ∀ s : List Nat,
      ((pParityLFSR s).isSome ↔ s.length = 2064) ∧
      (∀ p, pParityLFSR s = some p → p.length = 172) ∧
      ((qParityLFSR s).isSome ↔ s.length = 2236) ∧
      (∀ q, qParityLFSR s = some q → q.length = 104) ∧
      (∀ t, s = t → pParityLFSR s = pParityLFSR t ∧ qParityLFSR s = qParityLFSR t) := by
  intro s
  refine ⟨?_, ?_, ?_, ?_, ?_⟩
  · unfold pParityLFSR
    by_cases h : s.length = 2064 <;> simp [h]
  · intro p hp
    unfold pParityLFSR at hp
    by_cases h : s.length = 2064
    · simp [h] at hp
      simpa [← hp] using pParityBody_length s
    · simp [h] at hp
  · unfold qParityLFSR
    by_cases h : s.length = 2236 <;> simp [h]
  · intro q hq
    unfold qParityLFSR at hq
    by_cases h : s.length = 2236
    · simp [h] at hq
      simpa [← hq] using qParityBody_length s
    · simp [h] at hq
  · intro t ht
    rw [ht]
    exact ⟨rfl, rfl⟩

/-- Witness for C8 at concrete fixed-length inputs. -/
theorem parity_fixed_length_and_pure_witness :
    (pParityBody (List.replicate 2064 0)).length = 172 ∧
    (qParityBody (List.replicate 2236 0)).length = 104 :=
  ⟨(parity_fixed_length_and_pure (List.replicate 2064 0)).2.1
      (pParityBody (List.replicate 2064 0))
      (by unfold pParityLFSR; rw [List.length_replicate]; exact if_pos rfl),
   (parity_fixed_length_and_pure (List.replicate 2236 0)).2.2.2.1
      (qParityBody (List.replicate 2236 0))
      (by unfold qParityLFSR; rw [List.length_replicate]; exact if_pos rfl)⟩

/-- **C1**: for a data-track payload sector at LBA `lba` the encoder reads
2056 bytes at the cursor, splits them into the 8-byte subheader and 2048
bytes of user data, advances the cursor by 2056, and the emitted
2352-byte sector has: sync `00 FF×10 00` at `[0:12)`; BCD minute, second,
frame of `lba + 150` at `[12:15)`; mode byte 2 at `[15]`; the subheader
verbatim at `[16:24)`; the user data verbatim at `[24:2072)`; the EDC of
bytes `[16:2072)` in little-endian at `[2072:2076)`; the P-parity of
bytes `[12:2076)` at `[2076:2248)`; and the Q-parity of bytes `[12:2248)`
at `[2248:2352)`. -/
theorem data_sector_layout :
    ∀ (lba : Int) (st : EncSt),
      st.offset + 2056 ≤ st.pmf.length →
      dataStep 2 (lba + 150) st =
        .ok ⟨st.pmf, st.offset + 2056, st.out ++ encodeDataSector 2 (lba + 150) (slice st.pmf st.offset (st.offset + 2056))⟩ ∧
      (encodeDataSector 2 (lba + 150) (slice st.pmf st.offset (st.offset + 2056))).length = 2352 ∧
      slice (encodeDataSector 2 (lba + 150) (slice st.pmf st.offset (st.offset + 2056))) 0 12 = syncBytes ∧
      slice (encodeDataSector 2 (lba + 150) (slice st.pmf st.offset (st.offset + 2056))) 12 15 = [toBCD (lbaToMSF (lba + 150)).1, toBCD (lbaToMSF (lba + 150)).2.1, toBCD (lbaToMSF (lba + 150)).2.2] ∧
      slice (encodeDataSector 2 (lba + 150) (slice st.pmf st.offset (st.offset + 2056))) 15 16 = [2] ∧
      slice (encodeDataSector 2 (lba + 150) (slice st.pmf st.offset (st.offset + 2056))) 16 24 = (slice st.pmf st.offset (st.offset + 2056)).take 8 ∧
      slice (encodeDataSector 2 (lba + 150) (slice st.pmf st.offset (st.offset + 2056))) 24 2072 = (slice st.pmf st.offset (st.offset + 2056)).drop 8 ∧
      slice (encodeDataSector 2 (lba + 150) (slice st.pmf st.offset (st.offset + 2056))) 2072 2076 = computeEDC (slice (encodeDataSector 2 (lba + 150) (slice st.pmf st.offset (st.offset + 2056))) 16 2072) ∧
      pParityLFSR (slice (encodeDataSector 2 (lba + 150) (slice st.pmf st.offset (st.offset + 2056))) 12 2076) = some (slice (encodeDataSector 2 (lba + 150) (slice st.pmf st.offset (st.offset + 2056))) 2076 2248) ∧
      qParityLFSR (slice (encodeDataSector 2 (lba + 150) (slice st.pmf st.offset (st.offset + 2056))) 12 2248) = some (slice (encodeDataSector 2 (lba + 150) (slice st.pmf st.offset (st.offset + 2056))) 2248 2352) := by
  intro lba st hfit
  have hraw : (slice st.pmf st.offset (st.offset + 2056)).length = 2056 :=
    slice_len st.pmf st.offset 2056 hfit
  have hslices := encodeDataSector_slices 2 (lba + 150) (slice st.pmf st.offset (st.offset + 2056)) hraw
  obtain ⟨hL, h0, h12, h15, h16, h24, hedc, hp, hq⟩ := hslices
  refine ⟨?_, hL, h0, h12, ?_, h16, h24, hedc, hp, hq⟩
  · simp only [dataStep]
    rw [if_neg (show ¬(st.pmf.length < st.offset + pmfSector) from by
      have hps : pmfSector = 2056 := rfl
      omega)]
    rfl
  · rw [h15]
    rfl

/-- Witness for C1 on a concrete zero payload at LBA 0. -/
theorem data_sector_layout_witness :
    (encodeDataSector 2 (0 + 150)
      (slice (⟨List.replicate 2056 0, 0, []⟩ : EncSt).pmf
        (⟨List.replicate 2056 0, 0, []⟩ : EncSt).offset
        ((⟨List.replicate 2056 0, 0, []⟩ : EncSt).offset + 2056))).length = 2352 :=
  (data_sector_layout 0 ⟨List.replicate 2056 0, 0, []⟩
    (by rw [show (⟨List.replicate 2056 0, 0, []⟩ : EncSt).pmf.length
          = (List.replicate (2056 : Nat) (0 : Nat)).length from rfl,
        List.length_replicate])).2.1

/-- **C3**: the encoder consumes the payload through a single
monotonically non-decreasing cursor; it fails with the truncation error
exactly when the requested chunks (2352 bytes per audio sector, 2056 per
data sector) exceed the payload, and with the unconsumed-input error
exactly when, after all tracks, the cursor falls short of the payload
length. -/
theorem encoder_cursor_and_errors :
    ∀ (flag : Bool) (pmf : List Nat) (ts : List Track),
      (isTruncatedErr (buildBin flag pmf ts) = true ↔ pmf.length < neededBytes ts) ∧
      (isUnconsumedErr (buildBin flag pmf ts) = true ↔ neededBytes ts < pmf.length) ∧
      ((buildBin flag pmf ts).isOk = true ↔ neededBytes ts = pmf.length) ∧
      (∀ st st', trackLoop flag ts st = .ok st' →
        st.offset ≤ st'.offset ∧ st'.offset = st.offset + neededBytes ts) := by
  intro flag pmf ts
  have hmono : ∀ st st', trackLoop flag ts st = .ok st' →
      st.offset ≤ st'.offset ∧ st'.offset = st.offset + neededBytes ts := by
    intro st st' h
    have h1 := (trackLoop_ok flag ts st st' h).1
    exact ⟨by omega, h1⟩
  by_cases hcase : neededBytes ts ≤ pmf.length
  · obtain ⟨st', hst'⟩ := trackLoop_total flag ts ⟨pmf, 0, []⟩ (by simpa using hcase)
    have hfacts := trackLoop_ok flag ts ⟨pmf, 0, []⟩ st' hst'
    have hoff : st'.offset = neededBytes ts := by
      have h1 := hfacts.1
      simpa using h1
    have hlen : st'.pmf.length = pmf.length := hfacts.2.1
    by_cases heq : neededBytes ts = pmf.length
    · have hbb : buildBin flag pmf ts = .ok (st'.out, st'.pmf) := by
        unfold buildBin
        rw [hst']
        exact if_neg (by rw [hoff, hlen]; exact fun hne => hne heq)
      refine ⟨?_, ?_, ?_, hmono⟩
      · rw [hbb]
        constructor
        · intro hfalse; exact absurd hfalse (by simp [isTruncatedErr])
        · intro hlt2; exact absurd hlt2 (by omega)
      · rw [hbb]
        constructor
        · intro hfalse; exact absurd hfalse (by simp [isUnconsumedErr])
        · intro hlt2; exact absurd hlt2 (by omega)
      · rw [hbb]
        exact ⟨fun _ => heq, fun _ => rfl⟩
    · have hbb : buildBin flag pmf ts =
          .error (.unconsumed (st'.pmf.length - st'.offset)) := by
        unfold buildBin
        rw [hst']
        exact if_pos (by rw [hoff, hlen]; exact heq)
      refine ⟨?_, ?_, ?_, hmono⟩
      · rw [hbb]
        constructor
        · intro hfalse; exact absurd hfalse (by simp [isTruncatedErr])
        · intro hlt2; exact absurd hlt2 (by omega)
      · rw [hbb]
        exact ⟨fun _ => by omega, fun _ => rfl⟩
      · rw [hbb]
        constructor
        · intro hfalse; exact absurd hfalse (by simp [Except.isOk, Except.toBool])
        · intro heq2; exact absurd heq2 heq
  · have hlt : pmf.length < neededBytes ts := Nat.lt_of_not_le hcase
    obtain ⟨a, b, hab⟩ := trackLoop_err flag ts ⟨pmf, 0, []⟩ (by simp) (by simpa using hlt)
    have hbb : buildBin flag pmf ts = .error (.truncated a b) := by
      unfold buildBin
      rw [hab]
    refine ⟨?_, ?_, ?_, hmono⟩
    · rw [hbb]
      exact ⟨fun _ => hlt, fun _ => rfl⟩
    · rw [hbb]
      constructor
      · intro hfalse; exact absurd hfalse (by simp [isUnconsumedErr])
      · intro hlt2; exact absurd hlt2 (by omega)
    · rw [hbb]
      constructor
      · intro hfalse; exact absurd hfalse (by simp [Except.isOk, Except.toBool])
      · intro heq2; exact absurd heq2 (by omega)

/-- **C6 counterexample**: with the audio byte-order flag set, encoding a
single audio track whose first two payload bytes differ swaps them in the
payload buffer itself: after the pass the buffer starts `1, 0` instead of
`0, 1`. The claim's "regardless of the audio byte-order flag" is
therefore false. -/
theorem payload_mutation_counterexample :
    (buildBin true (0 :: 1 :: List.replicate 2350 0) [⟨1, 4, 0, 0, 0⟩]).toOption.map
        Prod.snd = some (1 :: 0 :: List.replicate 2350 0) ∧
    (1 :: 0 :: List.replicate 2350 0) ≠ (0 :: 1 :: List.replicate 2350 0) := by
  have hlen : (0 :: 1 :: List.replicate 2350 0 : List Nat).length = binSector := by
    simp only [List.length_cons, List.length_replicate]
    rfl
  have hswap : swapPairs (0 :: 1 :: List.replicate 2350 0) =
      1 :: 0 :: List.replicate 2350 0 := by
    rw [show swapPairs (0 :: 1 :: List.replicate 2350 0)
        = 1 :: 0 :: swapPairs (List.replicate 2350 0) from rfl]
    rw [swapPairs_replicate]
  constructor
  · rw [buildBin_single_audio_msb (0 :: 1 :: List.replicate 2350 0) hlen, hswap]
    rfl
  · intro hcontra
    injection hcontra with h1 _
    exact absurd h1 one_ne_zero

/-- **C6 (amended)**: when the audio byte-order flag is unset (AUDIO_LSB),
one encode pass leaves the payload buffer unchanged.  (When the flag is
set, the audio branch swaps byte pairs of audio-track regions in place,
so the unamended claim fails; see the counterexample.) -/
theorem payload_unchanged_when_lsb :
    ∀ (pmf : List Nat) (ts : List Track) (res : List Nat × List Nat),
      buildBin false pmf ts = .ok res → res.2 = pmf := by
  intro pmf ts res h
  unfold buildBin at h
  cases htl : trackLoop false ts ⟨pmf, 0, []⟩ with
  | error e => rw [htl] at h; exact absurd h (by simp)
  | ok st =>
    rw [htl] at h
    have h2 : (if st.offset ≠ st.pmf.length then
          (Except.error (BuildError.unconsumed (st.pmf.length - st.offset)) :
            Except BuildError (List Nat × List Nat))
        else .ok (st.out, st.pmf)) = .ok res := h
    by_cases hne : st.offset ≠ st.pmf.length
    · rw [if_pos hne] at h2
      exact absurd h2 (by simp)
    · rw [if_neg hne] at h2
      cases h2
      exact (trackLoop_ok false ts ⟨pmf, 0, []⟩ st htl).2.2.1 rfl

/-- Witness for the amended C6 on a concrete audio-only encode. -/
theorem payload_unchanged_when_lsb_witness :
    ((List.replicate 2352 0 : List Nat), (List.replicate 2352 0 : List Nat)).2 =
      List.replicate 2352 0 :=
  payload_unchanged_when_lsb (List.replicate 2352 0) [⟨1, 4, 0, 0, 0⟩]
    (List.replicate 2352 0, List.replicate 2352 0)
    (buildBin_single_audio_lsb (List.replicate 2352 0)
      (by rw [List.length_replicate]; rfl))

/-- **C7 counterexample**: in the scenario `1 2 0 10` / `2 4 12 20` with a
payload of 11×2056 + 9×2352 bytes, parsing succeeds with track 2's
`Pregap = 1` and the encoder emits exactly one pregap sector before track
2's first payload sector — but track 2 is an audio (mode 4) track, so the
pregap branch writes no sync or header: bytes `[0:12)` of that sector are
zeros, not the sync pattern the claim asserts. -/
theorem pregap_scenario_counterexample :
    parseFF 0 [⟨1, 2, 0, 10, 0⟩, ⟨2, 4, 12, 20, 0⟩] 43784 =
      .ok [⟨1, 2, 0, 10, 0⟩, ⟨2, 4, 12, 20, 1⟩] ∧
    (buildBin false (List.replicate 43784 0)
        [⟨1, 2, 0, 10, 0⟩, ⟨2, 4, 12, 20, 1⟩]).toOption.map
      (fun r => slice (slice r.1 25872 28224) 0 12) = some (List.replicate 12 0) ∧
    List.replicate 12 0 ≠ syncBytes := by
  obtain ⟨out, hbb, hol, hsl⟩ :=
    c7_build_structure (List.replicate 43784 0) (List.length_replicate 43784 0)
  refine ⟨by rfl, ?_, by decide⟩
  rw [hbb]
  show some (slice (slice out 25872 28224) 0 12) = some (List.replicate 12 0)
  rw [hsl]
  have hsub : slice (List.replicate 2352 0) 0 12 = List.replicate 12 0 := by
    unfold slice
    rw [List.drop_replicate, List.take_replicate]
    rfl
  rw [hsub]

/-- **C7 (amended)**: in the scenario `1 2 0 10` / `2 4 12 20` with a
payload of exactly 11×2056 + 9×2352 bytes, parsing succeeds with track
2's `Pregap = 1`, and the encoder emits exactly one pregap sector
immediately before track 2's first payload sector — the output is
21 sectors (11 data + 1 pregap + 9 audio, 49392 bytes) and the pregap
sector at bytes `[25872:28224)` is entirely zero (no sync or header,
track 2 being an audio track). -/
theorem pregap_scenario_amended :
    parseFF 0 [⟨1, 2, 0, 10, 0⟩, ⟨2, 4, 12, 20, 0⟩] 43784 =
      .ok [⟨1, 2, 0, 10, 0⟩, ⟨2, 4, 12, 20, 1⟩] ∧
    (buildBin false (List.replicate 43784 0)
        [⟨1, 2, 0, 10, 0⟩, ⟨2, 4, 12, 20, 1⟩]).toOption.map
      (fun r => (r.1.length, slice r.1 25872 28224)) =
      some (49392, List.replicate 2352 0) := by
  obtain ⟨out, hbb, hol, hsl⟩ :=
    c7_build_structure (List.replicate 43784 0) (List.length_replicate 43784 0)
  refine ⟨by rfl, ?_⟩
  rw [hbb]
  show some (out.length, slice out 25872 28224) = some (49392, List.replicate 2352 0)
  rw [hol, hsl]

/-- **C4**: parsing a descriptor — modelled by its parsed track rows, the
declared track count, and the actual payload length — fails exactly when:
zero track rows; a declared count greater than 0 differing from the row
count; some mode outside {2, 4}; some `Num` differing from its 1-based
position; some `Start > End`; some track `i > 1` with
`Start(i) ≤ End(i−1)`; or the aggregate expected size differing from the
payload length. -/
theorem parse_fails_iff :
    ∀ (numExpected : Int) (ts : List Track) (pmfLen : Int),
      (parseFF numExpected ts pmfLen).isOk = false ↔
        (ts = [] ∨
         (0 < numExpected ∧ (ts.length : Int) ≠ numExpected) ∨
         (∃ t ∈ ts, ¬(t.Mode = 2 ∨ t.Mode = 4)) ∨
         (∃ j, ∃ h : j < ts.length, (ts.get ⟨j, h⟩).Num ≠ (j : Int) + 1) ∨
         (∃ t ∈ ts, t.End < t.Start) ∨
         (∃ j, ∃ h : j + 1 < ts.length,
            (ts.get ⟨j + 1, h⟩).Start ≤ (ts.get ⟨j, Nat.lt_of_succ_lt h⟩).End) ∨
         expectedSize ts ≠ pmfLen) := by
  intro ne ts len
  have hNiff := numberedFrom_iff_get ts 0
  simp only [Nat.zero_add] at hNiff
  have hiff : (∃ out, parseFF ne ts len = .ok out) ↔
      (ts ≠ [] ∧ ¬(0 < ne ∧ (ts.length : Int) ≠ ne) ∧ rowsOk 0 0 ts ∧
        expectedSize ts = len) := by
    constructor
    · rintro ⟨out, hout⟩
      obtain ⟨-, -, hsz, hrows, hstrip⟩ := parseFF_ok_facts ne ts len out hout
      refine ⟨?_, ?_, hrows, ?_⟩
      · intro hempty
        rw [parseFF, if_pos (by rw [hempty]; rfl)] at hout
        exact absurd hout (by simp)
      · intro hbad
        rw [parseFF] at hout
        by_cases h1 : ts.length = 0
        · rw [if_pos h1] at hout; exact absurd hout (by simp)
        · rw [if_neg h1, if_pos hbad] at hout; exact absurd hout (by simp)
      · rw [← expectedSize_congr out ts hstrip]; exact hsz
    · rintro ⟨h1, h2, h3, h4⟩
      exact parseFF_total ne ts len h1 h2 h3 h4
  have hok : (parseFF ne ts len).isOk = false ↔
      ¬(∃ out, parseFF ne ts len = .ok out) := by
    cases hres : parseFF ne ts len with
    | error e => simp [Except.isOk, Except.toBool]
    | ok o => simp [Except.isOk, Except.toBool]
  rw [hok, hiff, rowsOk_zero_iff ts 0]
  constructor
  · intro hnot
    by_cases hA : ts = []
    · exact Or.inl hA
    by_cases hB : 0 < ne ∧ (ts.length : Int) ≠ ne
    · exact Or.inr (Or.inl hB)
    by_cases hM : ∀ t ∈ ts, t.Mode = 2 ∨ t.Mode = 4
    · by_cases hSE : ∀ t ∈ ts, t.Start ≤ t.End
      · by_cases hN : ∀ (j : Nat) (h : j < ts.length), (ts.get ⟨j, h⟩).Num = (j : Int) + 1
        · by_cases hC : ∀ (j : Nat) (h : j + 1 < ts.length),
              (ts.get ⟨j, Nat.lt_of_succ_lt h⟩).End < (ts.get ⟨j + 1, h⟩).Start
          · by_cases hS : expectedSize ts = len
            · exfalso
              apply hnot
              refine ⟨hA, hB, ⟨fun t ht => ⟨hM t ht, hSE t ht⟩, hNiff.mpr hN, ?_⟩, hS⟩
              rw [List.chain'_iff_get]
              intro i hi
              exact hC i (by omega)
            · exact Or.inr (Or.inr (Or.inr (Or.inr (Or.inr (Or.inr hS)))))
          · push_neg at hC
            obtain ⟨j, hj, hle⟩ := hC
            exact Or.inr (Or.inr (Or.inr (Or.inr (Or.inr (Or.inl ⟨j, hj, hle⟩)))))
        · push_neg at hN
          obtain ⟨j, hj, hne2⟩ := hN
          exact Or.inr (Or.inr (Or.inr (Or.inl ⟨j, hj, hne2⟩)))
      · push_neg at hSE
        obtain ⟨t, ht, hlt⟩ := hSE
        exact Or.inr (Or.inr (Or.inr (Or.inr (Or.inl ⟨t, ht, hlt⟩))))
    · push_neg at hM
      obtain ⟨t, ht, hmode⟩ := hM
      refine Or.inr (Or.inr (Or.inl ⟨t, ht, ?_⟩))
      exact fun hc => hc.elim hmode.1 hmode.2
  · rintro (hA | hB | ⟨t, ht, hmode⟩ | ⟨j, hj, hnum⟩ | ⟨t, ht, hlt⟩ |
      ⟨j, hj, hle⟩ | hS) ⟨c1, c2, ⟨cms, cn, cc⟩, c4⟩
    · exact c1 hA
    · exact c2 hB
    · exact hmode (cms t ht).1
    · exact hnum (hNiff.mp cn j hj)
    · exact absurd (cms t ht).2 (Int.not_le.mpr hlt)
    · have := List.chain'_iff_get.mp cc j (by omega)
      exact absurd this (Int.not_lt.mpr hle)
    · exact hS c4

/-- Witness for C3: a one-audio-track table whose needed bytes match the
payload length encodes successfully. -/
theorem encoder_cursor_and_errors_witness :
    (buildBin false (List.replicate 2352 0) [⟨1, 4, 0, 0, 0⟩]).isOk = true := by
  have hc : chunkSize ⟨1, 4, 0, 0, 0⟩ = 2352 := rfl
  have hs : sectorCount ⟨1, 4, 0, 0, 0⟩ = 1 := rfl
  have hn : neededBytes [⟨1, 4, 0, 0, 0⟩] = 2352 := by
    rw [neededBytes_cons, hs, hc]
    rfl
  exact ((encoder_cursor_and_errors false (List.replicate 2352 0)
    [⟨1, 4, 0, 0, 0⟩]).2.2.1).mpr (by rw [hn, List.length_replicate])

/-- Witness for C4: the empty descriptor fails to parse. -/
theorem parse_fails_iff_witness : (parseFF 0 [] 0).isOk = false :=
  (parse_fails_iff 0 [] 0).mpr (Or.inl rfl)

/-- **C5**: every track table returned by a successful parse satisfies the
data-model invariants: sequential 1-based numbering, `Start ≤ End`,
strictly increasing consecutive tracks with
`Pregap(i) = Start(i) − End(i−1) − 1 ≥ 0`, and the aggregate expected
size (2352 bytes per audio sector, 2056 per data sector) equal to the
payload length. -/
theorem parse_ok_invariants :
    ∀ (ne : Int) (ts : List Track) (len : Int) (out : List Track),
      parseFF ne ts len = .ok out →
      (∀ (j : Nat) (h : j < out.length), (out.get ⟨j, h⟩).Num = (j : Int) + 1) ∧
      (∀ t ∈ out, t.Start ≤ t.End) ∧
      (∀ (j : Nat) (h : j + 1 < out.length),
        (out.get ⟨j, Nat.lt_of_succ_lt h⟩).End < (out.get ⟨j + 1, h⟩).Start ∧
        (out.get ⟨j + 1, h⟩).Pregap =
          (out.get ⟨j + 1, h⟩).Start - (out.get ⟨j, Nat.lt_of_succ_lt h⟩).End - 1 ∧
        0 ≤ (out.get ⟨j + 1, h⟩).Pregap) ∧
      expectedSize out = len := by
  intro ne ts len out h
  obtain ⟨hrows, hpg, hsize, -, -⟩ := parseFF_ok_facts ne ts len out h
  obtain ⟨hmemse, hnum, hchain⟩ := (rowsOk_zero_iff out 0).mp hrows
  have hNiff := numberedFrom_iff_get out 0
  simp only [Nat.zero_add] at hNiff
  have hchainget := List.chain'_iff_get.mp hchain
  refine ⟨hNiff.mp hnum, fun t ht => (hmemse t ht).2, ?_, hsize⟩
  intro j hj
  have hlt : (out.get ⟨j, Nat.lt_of_succ_lt hj⟩).End < (out.get ⟨j + 1, hj⟩).Start :=
    hchainget j (by omega)
  have hpgj := pregapsOk_get out 0 0 hpg j hj
  exact ⟨hlt, hpgj, by omega⟩

/-- Witness for C5 on a concrete two-track descriptor. -/
theorem parse_ok_invariants_witness :
    expectedSize [⟨1, 2, 0, 0, 0⟩, ⟨2, 4, 2, 2, 1⟩] = 4408 :=
  (parse_ok_invariants 0 [⟨1, 2, 0, 0, 0⟩, ⟨2, 4, 2, 2, 0⟩] 4408
    [⟨1, 2, 0, 0, 0⟩, ⟨2, 4, 2, 2, 1⟩] rfl).2.2.2

/-- **C10**: in every successfully parsed track table the first track's
`Pregap` is 0 regardless of its `Start` value, and the encoder emits
exactly `Σ (Pregap + sectorCount)` sectors — no pregap sectors before
track 1 and no sectors for LBAs below `Start(1)` appear in the output
image. -/
theorem first_track_pregap_and_size :
    ∀ (ne : Int) (ts : List Track) (len : Int) (out : List Track),
      parseFF ne ts len = .ok out →
      (∀ t0, out.head? = some t0 → t0.Pregap = 0) ∧
      (∀ (flag : Bool) (pmf : List Nat) (res : List Nat × List Nat),
        buildBin flag pmf out = .ok res →
        res.1.length = binSector * emittedSectors out) := by
  intro ne ts len out h
  obtain ⟨-, hpg, -, -, -⟩ := parseFF_ok_facts ne ts len out h
  exact ⟨pregapsOk_head out 0 hpg,
    fun flag pmf res hb => buildBin_out_length flag pmf out res hb⟩

/-- Witness for C10: a first track with `Start = 3 > 0` still parses, and
its `Pregap` is 0. -/
theorem first_track_pregap_and_size_witness :
    (⟨1, 4, 3, 4, 0⟩ : Track).Pregap = 0 :=
  (first_track_pregap_and_size 0 [⟨1, 4, 3, 4, 0⟩] 4704 [⟨1, 4, 3, 4, 0⟩] rfl).1
    ⟨1, 4, 3, 4, 0⟩ rfl

/-- **C9**: `gfMult` is commutative on bytes, and `gfMult a 0 = 0` for
every byte `a`, with the GF(256) tables built from polynomial 0x11D with
the 509-entry mirrored exponent table. -/
theorem gfMult_comm_and_zero :
    (∀ a b : Nat, a < 256 → b < 256 → gfMult a b = gfMult b a) ∧
    (∀ a : Nat, a < 256 → gfMult a 0 = 0) := by
  constructor
  · intro a b _ _
    unfold gfMult
    by_cases ha : a = 0
    · by_cases hb : b = 0 <;> simp [ha, hb]
    · by_cases hb : b = 0
      · simp [ha, hb]
      · simp [ha, hb, Nat.add_comm]
  · intro a _
    simp [gfMult]

/-- Witness for C9 at concrete bytes. -/
theorem gfMult_comm_and_zero_witness :
    gfMult 7 200 = gfMult 200 7 ∧ gfMult 255 0 = 0 :=
  ⟨gfMult_comm_and_zero.1 7 200 (by decide) (by decide),
   gfMult_comm_and_zero.2 255 (by decide)⟩

end Pmf2Bin
